import Mathlib

/-!
Shallow embedding of the `meta` crate of `common-rust-modules`
(`src/crates/meta/src/lib.rs` and `src/crates/meta/src/helpers.rs`), an audio
tag / duration extraction library, together with proofs settling the
specification claims.

Modelling conventions:
* A file is a `List Nat` of byte values (each `< 256` for well-formed inputs);
  reads at absolute offsets mirror the Rust `seek`/`read` calls.
* Machine integers are modelled as `Nat`.  Bit-level operations are rendered
  with the corresponding `Nat` bitwise operators exactly where the source uses
  them; `u32::from_le_bytes` / `from_be_bytes` are rendered by their arithmetic
  meaning.
* Overflow-checked (debug-profile) arithmetic: the two reachable overflow sites
  of the source (`chunk_size - 4` in `from_wav`, `duration * 1000` in
  `m4a_duration` version 1) are modelled explicitly and produce the error value
  `PErr.overflow`, mirroring the debug-build panic; the analogous guard is kept
  for the `total_size * 8 * 1000` fallback product of `mp3_duration`.
* Loops are modelled as fuelled structural recursion so that every definition
  is executable by kernel reduction; each fuel argument is chosen at the call
  site to dominate the loop's iteration count (each iteration of the source
  loops strictly advances the cursor), except `mp3_duration`, whose source
  already carries the explicit iteration cap `2 * file size`, which the model
  reuses verbatim.
* Rust `String`s are `List Char`; `String::from_utf8_lossy`,
  `String::from_utf16_lossy` and `String::from_utf8` are modelled by executable
  decoders following their replacement-character semantics.
-/

set_option maxRecDepth 100000

namespace MetaCrate

/-! ## Byte-list access helpers -/

/-- Byte at absolute offset `i` (`0` past the end; the model only consumes it
behind the source's own bounds checks). -/
def at8 (bs : List Nat) (i : Nat) : Nat := bs.getD i 0

/-- The sub-buffer `bs[a..b]`. -/
def byteSlice (bs : List Nat) (a b : Nat) : List Nat := (bs.drop a).take (b - a)

/-- Little-endian `u32` read at offset `i` (`u32::from_le_bytes`). -/
def leU32at (bs : List Nat) (i : Nat) : Nat :=
  at8 bs i + at8 bs (i + 1) * 256 + at8 bs (i + 2) * 65536 +
    at8 bs (i + 3) * 16777216

/-- Big-endian `u32` read at offset `i` (`u32::from_be_bytes`). -/
def beU32at (bs : List Nat) (i : Nat) : Nat :=
  at8 bs i * 16777216 + at8 bs (i + 1) * 65536 + at8 bs (i + 2) * 256 +
    at8 bs (i + 3)

/-- Big-endian `u64` read at offset `i` (`u64::from_be_bytes`). -/
def beU64at (bs : List Nat) (i : Nat) : Nat :=
  beU32at bs i * 4294967296 + beU32at bs (i + 4)

/-! ## Text decoding (Rust string primitives used by the crate) -/

/-- The Unicode replacement character `U+FFFD`. -/
def replacementChar : Char := Char.ofNat 0xFFFD

/-- The NUL character. -/
def nulChar : Char := Char.ofNat 0

/-- UTF-8 continuation byte test (`0x80..=0xBF`). -/
def utf8IsCont (b : Nat) : Bool := 0x80 ≤ b && b ≤ 0xBF

/-- Admissible first continuation byte of a three-byte sequence headed by
`b ∈ 0xE0..=0xEF` (RFC 3629 ranges, as enforced by `core::str`). -/
def utf8First3Ok (b c : Nat) : Bool :=
  if b = 0xE0 then 0xA0 ≤ c && c ≤ 0xBF
  else if b = 0xED then 0x80 ≤ c && c ≤ 0x9F
  else utf8IsCont c

/-- Admissible first continuation byte of a four-byte sequence headed by
`b ∈ 0xF0..=0xF4`. -/
def utf8First4Ok (b c : Nat) : Bool :=
  if b = 0xF0 then 0x90 ≤ c && c ≤ 0xBF
  else if b = 0xF4 then 0x80 ≤ c && c ≤ 0x8F
  else utf8IsCont c

/-- Model of `String::from_utf8_lossy`: decode UTF-8, replacing each maximal
invalid subpart by one `U+FFFD`, with the replacement-advance behaviour of
`core::str::Utf8Error::error_len`. -/
def utf8Lossy : List Nat → List Char
  | [] => []
  | b :: rest =>
    if b ≤ 0x7F then Char.ofNat b :: utf8Lossy rest
    else if b < 0xC2 then replacementChar :: utf8Lossy rest
    else if b ≤ 0xDF then
      match rest with
      | [] => [replacementChar]
      | c1 :: r1 =>
        if utf8IsCont c1 then
          Char.ofNat ((b % 32) * 64 + c1 % 64) :: utf8Lossy r1
        else replacementChar :: utf8Lossy (c1 :: r1)
    else if b ≤ 0xEF then
      match rest with
      | [] => [replacementChar]
      | [c1] =>
        if utf8First3Ok b c1 then [replacementChar]
        else replacementChar :: utf8Lossy [c1]
      | c1 :: c2 :: r2 =>
        if utf8First3Ok b c1 then
          if utf8IsCont c2 then
            Char.ofNat ((b % 16) * 4096 + (c1 % 64) * 64 + c2 % 64) ::
              utf8Lossy r2
          else replacementChar :: utf8Lossy (c2 :: r2)
        else replacementChar :: utf8Lossy (c1 :: c2 :: r2)
    else if b ≤ 0xF4 then
      match rest with
      | [] => [replacementChar]
      | [c1] =>
        if utf8First4Ok b c1 then [replacementChar]
        else replacementChar :: utf8Lossy [c1]
      | [c1, c2] =>
        if utf8First4Ok b c1 then
          if utf8IsCont c2 then [replacementChar]
          else replacementChar :: utf8Lossy [c2]
        else replacementChar :: utf8Lossy [c1, c2]
      | c1 :: c2 :: c3 :: r3 =>
        if utf8First4Ok b c1 then
          if utf8IsCont c2 then
            if utf8IsCont c3 then
              Char.ofNat ((b % 8) * 262144 + (c1 % 64) * 4096 +
                (c2 % 64) * 64 + c3 % 64) :: utf8Lossy r3
            else replacementChar :: utf8Lossy (c3 :: r3)
          else replacementChar :: utf8Lossy (c2 :: c3 :: r3)
        else replacementChar :: utf8Lossy (c1 :: c2 :: c3 :: r3)
    else replacementChar :: utf8Lossy rest

/-- Model of strict `String::from_utf8` (`none` on any invalid byte). -/
def utf8Decode? : List Nat → Option (List Char)
  | [] => some []
  | b :: rest =>
    if b ≤ 0x7F then (utf8Decode? rest).map (Char.ofNat b :: ·)
    else if b < 0xC2 then none
    else if b ≤ 0xDF then
      match rest with
      | [] => none
      | c1 :: r1 =>
        if utf8IsCont c1 then
          (utf8Decode? r1).map (Char.ofNat ((b % 32) * 64 + c1 % 64) :: ·)
        else none
    else if b ≤ 0xEF then
      match rest with
      | c1 :: c2 :: r2 =>
        if utf8First3Ok b c1 && utf8IsCont c2 then
          (utf8Decode? r2).map
            (Char.ofNat ((b % 16) * 4096 + (c1 % 64) * 64 + c2 % 64) :: ·)
        else none
      | _ => none
    else if b ≤ 0xF4 then
      match rest with
      | c1 :: c2 :: c3 :: r3 =>
        if utf8First4Ok b c1 && utf8IsCont c2 && utf8IsCont c3 then
          (utf8Decode? r3).map
            (Char.ofNat ((b % 8) * 262144 + (c1 % 64) * 4096 +
              (c2 % 64) * 64 + c3 % 64) :: ·)
        else none
      | _ => none
    else none

/-- Model of `char::decode_utf16` + `String::from_utf16_lossy` on a list of
16-bit code units: unpaired surrogates decode to `U+FFFD`. -/
def utf16Lossy : List Nat → List Char
  | [] => []
  | u :: rest =>
    if u < 0xD800 then Char.ofNat u :: utf16Lossy rest
    else if u ≤ 0xDBFF then
      match rest with
      | [] => [replacementChar]
      | u2 :: r1 =>
        if 0xDC00 ≤ u2 && u2 ≤ 0xDFFF then
          Char.ofNat (0x10000 + (u - 0xD800) * 1024 + (u2 - 0xDC00)) ::
            utf16Lossy r1
        else replacementChar :: utf16Lossy (u2 :: r1)
    else if u ≤ 0xDFFF then replacementChar :: utf16Lossy rest
    else Char.ofNat u :: utf16Lossy rest

/-- Model of `char::is_whitespace` (the `White_Space` property). -/
def rustIsWhitespace (c : Char) : Bool :=
  let n := c.toNat
  (9 ≤ n && n ≤ 13) || n = 32 || n = 0x85 || n = 0xA0 || n = 0x1680 ||
    (0x2000 ≤ n && n ≤ 0x200A) || n = 0x2028 || n = 0x2029 || n = 0x202F ||
    n = 0x205F || n = 0x3000

/-- Model of `str::trim_start_matches` with a predicate. -/
def trimStartP (p : Char → Bool) (s : List Char) : List Char := s.dropWhile p

/-- Model of `str::trim_end_matches` with a predicate. -/
def trimEndP (p : Char → Bool) (s : List Char) : List Char :=
  (s.reverse.dropWhile p).reverse

/-- Model of `str::trim_matches` with a single character pattern. -/
def trimMatchesChar (c : Char) (s : List Char) : List Char :=
  trimEndP (· == c) (trimStartP (· == c) s)

/-- Model of `str::trim`. -/
def rustTrim (s : List Char) : List Char :=
  trimEndP rustIsWhitespace (trimStartP rustIsWhitespace s)

/-- Model of `u8::to_ascii_lowercase` mapped over a string
(`str::to_ascii_lowercase`). -/
def asciiLower (s : List Char) : List Char :=
  s.map fun c => if 'A' ≤ c && c ≤ 'Z' then Char.ofNat (c.toNat + 32) else c

/-! ## Data model and error values -/

/-- The metadata record (`SongMetadata` in `lib.rs`). -/
structure SongMetadata where
  artist : Option (List Char) := none
  title : Option (List Char) := none
  album : Option (List Char) := none
  genre : Option (List Char) := none
  duration_ms : Option Nat := none
deriving Repr, DecidableEq

/-- The all-absent record (`SongMetadata::default()`). -/
def defaultMeta : SongMetadata := {}

/-- Failure values a modelled operation can produce: `ioError` models a
returned `Err(io::Error)`; `overflow` models a debug-profile arithmetic
overflow panic. -/
inductive PErr where
  | ioError
  | overflow
deriving Repr, DecidableEq

instance exceptDecEq {e a : Type} [DecidableEq e] [DecidableEq a] :
    DecidableEq (Except e a) := fun x y =>
  match x, y with
  | .error u, .error v =>
    if h : u = v then isTrue (by rw [h])
    else isFalse (fun hc => by cases hc; exact h rfl)
  | .ok u, .ok v =>
    if h : u = v then isTrue (by rw [h])
    else isFalse (fun hc => by cases hc; exact h rfl)
  | .error _, .ok _ => isFalse (fun hc => by cases hc)
  | .ok _, .error _ => isFalse (fun hc => by cases hc)

/-! Four-byte tag constants used by the parsers. -/

def bRIFF : List Nat := [0x52, 0x49, 0x46, 0x46]

def bWAVE : List Nat := [0x57, 0x41, 0x56, 0x45]

def bLIST : List Nat := [0x4C, 0x49, 0x53, 0x54]

def bINFO : List Nat := [0x49, 0x4E, 0x46, 0x4F]

def bIART : List Nat := [0x49, 0x41, 0x52, 0x54]

def bINAM : List Nat := [0x49, 0x4E, 0x41, 0x4D]

def bIPRD : List Nat := [0x49, 0x50, 0x52, 0x44]

def bIGNR : List Nat := [0x49, 0x47, 0x4E, 0x52]

def bfmt : List Nat := [0x66, 0x6D, 0x74, 0x20]

def bdata : List Nat := [0x64, 0x61, 0x74, 0x61]

def bTAG : List Nat := [0x54, 0x41, 0x47]

def bID3 : List Nat := [0x49, 0x44, 0x33]

def bID3v3 : List Nat := [0x49, 0x44, 0x33, 0x03]

def bID3v4 : List Nat := [0x49, 0x44, 0x33, 0x04]

def bfLaC : List Nat := [0x66, 0x4C, 0x61, 0x43]

def bTIT2 : List Nat := [0x54, 0x49, 0x54, 0x32]

def bTPE1 : List Nat := [0x54, 0x50, 0x45, 0x31]

def bTALB : List Nat := [0x54, 0x41, 0x4C, 0x42]

def bTCON : List Nat := [0x54, 0x43, 0x4F, 0x4E]

def bmoov : List Nat := [0x6D, 0x6F, 0x6F, 0x76]

def bmvhd : List Nat := [0x6D, 0x76, 0x68, 0x64]

def bCnam : List Nat := [0xA9, 0x6E, 0x61, 0x6D]

def bCART : List Nat := [0xA9, 0x41, 0x52, 0x54]

def bCalb : List Nat := [0xA9, 0x61, 0x6C, 0x62]

def bCgen : List Nat := [0xA9, 0x67, 0x65, 0x6E]

/-! ## `helpers.rs` -/

/-- `trim_id3v1_text`: lossy-decode a fixed-width field, strip trailing NULs,
trim whitespace, and treat an empty result as absent. -/
def trim_id3v1_text (b : List Nat) : Option (List Char) :=
  let s := rustTrim (trimEndP (· == nulChar) (utf8Lossy b))
  if s.isEmpty then none else some s

/-- `synchsafe_to_u32`: four bytes contribute their low 7 bits each,
big-endian. -/
def synchsafe_to_u32 (b : List Nat) : Nat :=
  ((at8 b 0 &&& 0x7F) <<< 21) ||| ((at8 b 1 &&& 0x7F) <<< 14) |||
    ((at8 b 2 &&& 0x7F) <<< 7) ||| (at8 b 3 &&& 0x7F)

/-- Model of `slice::chunks(2)`. -/
def chunksOf2 : List Nat → List (List Nat)
  | [] => []
  | [a] => [[a]]
  | a :: b :: r => [a, b] :: chunksOf2 r

/-- The 2-byte big-endian code units taken in `decode_text_frame`'s UTF-16
branch: `chunks(2)` filtered to full chunks, each read with
`u16::from_be_bytes`. -/
def u16beUnits (l : List Nat) : List Nat :=
  (chunksOf2 l).filterMap fun c =>
    match c with
    | [a, b] => some (a * 256 + b)
    | _ => none

/-- `decode_text_frame`: first payload byte selects the text encoding. -/
def decode_text_frame (data : List Nat) : Option (List Char) :=
  match data with
  | [] => none
  | e :: rest =>
    if e = 0 then some (trimMatchesChar nulChar (utf8Lossy rest))
    else if e = 1 then
      some (trimMatchesChar nulChar (utf16Lossy (u16beUnits rest)))
    else none

/-- `str::splitn(2, '=')` viewed as an optional key/value split: `some` exactly
when the string contains `'='`. -/
def splitn2Eq (s : List Char) : Option (List Char × List Char) :=
  if s.contains '=' then
    some (s.takeWhile (· ≠ '='), (s.dropWhile (· ≠ '=')).tail)
  else none

/-- One `KEY=VALUE` comment applied to the record (the `match` inside
`parse_vorbis_comments`). -/
def vorbisApply (meta : SongMetadata) (s : List Char) : SongMetadata :=
  match splitn2Eq s with
  | none => meta
  | some (k, v) =>
    let key := asciiLower k
    if key = "artist".toList then { meta with artist := some v }
    else if key = "title".toList then { meta with title := some v }
    else if key = "album".toList then { meta with album := some v }
    else if key = "genre".toList then { meta with genre := some v }
    else meta

/-- The `for _ in 0..count` loop of `parse_vorbis_comments`. -/
def vorbisLoop (data : List Nat) : Nat → Nat → SongMetadata → SongMetadata
  | 0, _, meta => meta
  | n + 1, idx, meta =>
    if idx + 4 > data.length then meta
    else
      let len := leU32at data idx
      let idx2 := idx + 4
      if idx2 + len > data.length then meta
      else
        let meta2 :=
          match utf8Decode? (byteSlice data idx2 (idx2 + len)) with
          | some s => vorbisApply meta s
          | none => meta
        vorbisLoop data n (idx2 + len) meta2

/-- `parse_vorbis_comments`. -/
def parse_vorbis_comments (meta : SongMetadata) (data : List Nat) :
    SongMetadata :=
  if data.length < 8 then meta
  else
    let vendor_len := leU32at data 0
    let idx := 4 + vendor_len
    if idx + 4 > data.length then meta
    else
      let count := leU32at data idx
      vorbisLoop data count (idx + 4) meta

/-- The atom walk of `extract_m4a_text`; the cursor `i` advances by at least 8
per iteration, so fuel `data.length + 1` is never exhausted. -/
def extract_m4a_textGo (data : List Nat) : Nat → Nat → Option (List Char)
  | 0, _ => none
  | fuel + 1, i =>
    if i + 8 > data.length then none
    else
      let size := beU32at data i
      if size < 8 ∨ i + size > data.length then none
      else if byteSlice data (i + 4) (i + 8) = bdata then
        let start := if i + 16 ≤ i + size then i + 16 else i + 8
        some (trimMatchesChar nulChar (utf8Lossy (byteSlice data start (i + size))))
      else extract_m4a_textGo data fuel (i + size)

/-- `extract_m4a_text`. -/
def extract_m4a_text (data : List Nat) : Option (List Char) :=
  extract_m4a_textGo data (data.length + 1) 0

/-! ## `lib.rs`: filename prettification -/

/-- Model of `Path::file_stem` for a path that is a plain file name (no
directory separators, not `"."` or `".."`, which is the shape the claims
exercise): the portion before the last `'.'`, except that a leading-dot-only
name is its own stem and the empty name has none. -/
def fileStem (name : List Char) : Option (List Char) :=
  if name.isEmpty then none
  else
    match name.reverse.dropWhile (· ≠ '.') with
    | [] => some name
    | [_] => some name
    | _ :: rest => some rest.reverse

/-- Model of `char::to_uppercase` restricted to ASCII (outside `'a'..='z'` the
claims only exercise characters that uppercase to themselves). -/
def charToUppercase (c : Char) : List Char :=
  if 'a' ≤ c && c ≤ 'z' then [Char.ofNat (c.toNat - 32)] else [c]

/-- Model of `str::split_whitespace` (single pass, accumulator holds the
current word reversed). -/
def splitWhitespaceGo : List Char → List Char → List (List Char)
  | [], acc => if acc.isEmpty then [] else [acc.reverse]
  | c :: r, acc =>
    if rustIsWhitespace c then
      if acc.isEmpty then splitWhitespaceGo r []
      else acc.reverse :: splitWhitespaceGo r []
    else splitWhitespaceGo r (c :: acc)

/-- Model of `str::split_whitespace`. -/
def splitWhitespace (s : List Char) : List (List Char) :=
  splitWhitespaceGo s []

/-- The per-word closure of `prettify_filename`: uppercase the first character,
keep the rest. -/
def capitalizeWord (w : List Char) : List Char :=
  match w with
  | [] => []
  | c :: rest => charToUppercase c ++ rest

/-- Model of `Vec::join(" ")`. -/
def joinSpace (ws : List (List Char)) : List Char :=
  (ws.intersperse [' ']).flatten

/-- `SongMetadata::prettify_filename`. -/
def prettify_filename (path : List Char) : List Char :=
  let file_name := (fileStem path).getD "Unknown".toList
  joinSpace
    (((file_name.map fun c => if c = '_' then ' ' else c).map fun c =>
        if c = '-' then ' ' else c)
      |> splitWhitespace |>.map capitalizeWord)

/-- `SongMetadata::default_with_filename`. -/
def default_with_filename (path : List Char) : SongMetadata :=
  { defaultMeta with title := some (prettify_filename path) }

/-! ## `lib.rs`: tag parsers -/

/-- The `LIST`/`INFO` sub-chunk loop of `from_wav`.  Returns the cursor
position after the loop together with the updated record; `remaining` drops by
at least 8 per iteration, so fuel `remaining + 1` is never exhausted. -/
def wavInfoGo (bytes : List Nat) :
    Nat → Nat → Nat → SongMetadata → Except PErr (Nat × SongMetadata)
  | 0, pos, _, meta => .ok (pos, meta)
  | fuel + 1, pos, remaining, meta =>
    if remaining < 8 then .ok (pos, meta)
    else if pos + 8 > bytes.length then .ok (bytes.length, meta)
    else
      let sub_id := byteSlice bytes pos (pos + 4)
      let sub_size := leU32at bytes (pos + 4)
      if pos + 8 + sub_size > bytes.length then .error .ioError
      else
        let text := rustTrim (trimMatchesChar nulChar
          (utf8Lossy (byteSlice bytes (pos + 8) (pos + 8 + sub_size))))
        let meta2 :=
          if sub_id = bIART then { meta with artist := some text }
          else if sub_id = bINAM then { meta with title := some text }
          else if sub_id = bIPRD then { meta with album := some text }
          else if sub_id = bIGNR then { meta with genre := some text }
          else meta
        wavInfoGo bytes fuel (pos + 8 + sub_size)
          (remaining - (8 + sub_size)) meta2

/-- The top-level chunk loop of `from_wav`; the cursor advances by at least 8
per iteration, so fuel `bytes.length + 1` is never exhausted. -/
def from_wavGo (bytes : List Nat) :
    Nat → Nat → SongMetadata → Except PErr SongMetadata
  | 0, _, meta => .ok meta
  | fuel + 1, pos, meta =>
    if pos + 8 > bytes.length then .ok meta
    else
      let chunk_id := byteSlice bytes pos (pos + 4)
      let chunk_size := leU32at bytes (pos + 4)
      let next := pos + 8 + chunk_size
      if chunk_id = bLIST then
        if pos + 12 > bytes.length then .error .ioError
        else if byteSlice bytes (pos + 8) (pos + 12) = bINFO then
          if chunk_size < 4 then .error .overflow
          else
            match wavInfoGo bytes (chunk_size - 4 + 1) (pos + 12)
                (chunk_size - 4) meta with
            | .error e => .error e
            | .ok (pos2, meta2) => from_wavGo bytes fuel pos2 meta2
        else from_wavGo bytes fuel next meta
      else from_wavGo bytes fuel next meta

/-- `SongMetadata::from_wav`.  The `chunk_size - 4` for an `INFO` list whose
declared size is below 4 underflows `u64` in the source (a debug-profile
panic), modelled by `PErr.overflow`. -/
def from_wav (bytes : List Nat) : Except PErr SongMetadata :=
  from_wavGo bytes (bytes.length + 1) 12 defaultMeta

/-- Decimal rendering of a byte (`format!("{}", b)`); fuel `n` dominates the
digit recursion. -/
def decStrGo : Nat → Nat → List Char
  | 0, n => [Char.ofNat (48 + n % 10)]
  | fuel + 1, n =>
    if n < 10 then [Char.ofNat (48 + n)]
    else decStrGo fuel (n / 10) ++ [Char.ofNat (48 + n % 10)]

/-- Decimal rendering of a natural number. -/
def decStr (n : Nat) : List Char := decStrGo n n

/-- `SongMetadata::from_id3v1`. -/
def from_id3v1 (bytes : List Nat) : Except PErr SongMetadata :=
  if bytes.length < 128 then .error .ioError
  else
    let buf := bytes.drop (bytes.length - 128)
    if byteSlice buf 0 3 ≠ bTAG then .error .ioError
    else
      .ok { artist := trim_id3v1_text (byteSlice buf 33 63)
            title := trim_id3v1_text (byteSlice buf 3 33)
            album := trim_id3v1_text (byteSlice buf 63 93)
            genre := some (decStr (at8 buf 127))
            duration_ms := none }

/-- The frame loop of `from_mp3v2`; `i` advances by at least 11 per iteration,
so fuel `tag.length + 1` is never exhausted. -/
def mp3v2Go (tag : List Nat) : Nat → Nat → SongMetadata → SongMetadata
  | 0, _, meta => meta
  | fuel + 1, i, meta =>
    if i + 10 > tag.length then meta
    else
      let id := byteSlice tag i (i + 4)
      let size := beU32at tag (i + 4)
      if size = 0 ∨ i + 10 + size > tag.length then meta
      else
        let text := decode_text_frame (byteSlice tag (i + 10) (i + 10 + size))
        let meta2 :=
          if id = bTIT2 then { meta with title := text }
          else if id = bTPE1 then { meta with artist := text }
          else if id = bTALB then { meta with album := text }
          else if id = bTCON then { meta with genre := text }
          else meta
        mp3v2Go tag fuel (i + 10 + size) meta2

/-- `SongMetadata::from_mp3v2`. -/
def from_mp3v2 (bytes : List Nat) : Except PErr SongMetadata :=
  if bytes.length < 10 then .error .ioError
  else if byteSlice bytes 0 3 ≠ bID3 then .error .ioError
  else
    let tag_size := synchsafe_to_u32 (byteSlice bytes 6 10)
    if 10 + tag_size > bytes.length then .error .ioError
    else .ok (mp3v2Go (byteSlice bytes 10 (10 + tag_size)) (tag_size + 1) 0
      defaultMeta)

/-- The metadata-block loop of `from_flac`; the cursor advances by at least 4
per iteration, so fuel `bytes.length + 1` is never exhausted. -/
def from_flacGo (bytes : List Nat) :
    Nat → Nat → SongMetadata → Except PErr SongMetadata
  | 0, _, meta => .ok meta
  | fuel + 1, pos, meta =>
    if pos + 4 > bytes.length then .ok meta
    else
      let h0 := at8 bytes pos
      let block_len := ((at8 bytes (pos + 1)) <<< 16) |||
        ((at8 bytes (pos + 2)) <<< 8) ||| at8 bytes (pos + 3)
      if h0 &&& 0x7F = 4 then
        if pos + 4 + block_len > bytes.length then .error .ioError
        else
          let meta2 := parse_vorbis_comments meta
            (byteSlice bytes (pos + 4) (pos + 4 + block_len))
          if h0 &&& 0x80 ≠ 0 then .ok meta2
          else from_flacGo bytes fuel (pos + 4 + block_len) meta2
      else
        if h0 &&& 0x80 ≠ 0 then .ok meta
        else from_flacGo bytes fuel (pos + 4 + block_len) meta

/-- `SongMetadata::from_flac`. -/
def from_flac (bytes : List Nat) : Except PErr SongMetadata :=
  if bytes.length < 4 then .error .ioError
  else if byteSlice bytes 0 4 ≠ bfLaC then .error .ioError
  else from_flacGo bytes (bytes.length + 1) 4 defaultMeta

/-- The atom loop of `from_m4a`; `i` advances by at least 8 per iteration, so
fuel `data.length + 1` is never exhausted. -/
def from_m4aGo (data : List Nat) : Nat → Nat → SongMetadata → SongMetadata
  | 0, _, meta => meta
  | fuel + 1, i, meta =>
    if i + 8 > data.length then meta
    else
      let size := beU32at data i
      if size < 8 ∨ i + size > data.length then meta
      else
        let atom := byteSlice data (i + 4) (i + 8)
        let payload := byteSlice data (i + 8) (i + size)
        let meta2 :=
          if atom = bCnam then { meta with title := extract_m4a_text payload }
          else if atom = bCART then
            { meta with artist := extract_m4a_text payload }
          else if atom = bCalb then
            { meta with album := extract_m4a_text payload }
          else if atom = bCgen then
            { meta with genre := extract_m4a_text payload }
          else meta
        from_m4aGo data fuel (i + size) meta2

/-- `SongMetadata::from_m4a` on the buffer produced by `read_to_end` (the
source's `io::Result` is always `Ok`). -/
def from_m4a (data : List Nat) : SongMetadata :=
  from_m4aGo data (data.length + 1) 0 defaultMeta

/-! ## `lib.rs`: duration estimators -/

/-- The code after `wav_duration`'s chunk loop. -/
def wavDurFinish (fmt_found : Bool) (byte_rate data_size : Nat) :
    Except PErr Nat :=
  if fmt_found ∧ byte_rate > 0 then .ok (data_size * 1000 / byte_rate)
  else .error .ioError

/-- The chunk loop of `wav_duration`.  Note that the source does not skip a
`data` chunk's payload: after recording `data_size` it keeps scanning right
after the 8-byte chunk header.  The cursor advances by at least 8 per
iteration, so fuel `bytes.length + 1` is never exhausted. -/
def wav_durationGo (bytes : List Nat) :
    Nat → Nat → Bool → Nat → Nat → Except PErr Nat
  | 0, _, fmt_found, byte_rate, data_size =>
    wavDurFinish fmt_found byte_rate data_size
  | fuel + 1, pos, fmt_found, byte_rate, data_size =>
    if pos + 8 > bytes.length then wavDurFinish fmt_found byte_rate data_size
    else
      let id := byteSlice bytes pos (pos + 4)
      let size := leU32at bytes (pos + 4)
      if id = bfmt then
        if pos + 8 + size > bytes.length then .error .ioError
        else
          let fmt := byteSlice bytes (pos + 8) (pos + 8 + size)
          if fmt.length ≥ 12 then
            wav_durationGo bytes fuel (pos + 8 + size) true (leU32at fmt 8)
              data_size
          else
            wav_durationGo bytes fuel (pos + 8 + size) fmt_found byte_rate
              data_size
      else if id = bdata then
        wav_durationGo bytes fuel (pos + 8) fmt_found byte_rate size
      else
        wav_durationGo bytes fuel (pos + 8 + size) fmt_found byte_rate
          data_size

/-- `SongMetadata::wav_duration`. -/
def wav_duration (bytes : List Nat) : Except PErr Nat :=
  wav_durationGo bytes (bytes.length + 1) 12 false 0 0

/-- The metadata-block loop of `flac_duration`; the cursor advances by at
least 4 per iteration, so fuel `bytes.length + 1` is never exhausted. -/
def flac_durationGo (bytes : List Nat) : Nat → Nat → Except PErr Nat
  | 0, _ => .error .ioError
  | fuel + 1, pos =>
    if pos + 4 > bytes.length then .error .ioError
    else
      let h0 := at8 bytes pos
      let block_len := ((at8 bytes (pos + 1)) <<< 16) |||
        ((at8 bytes (pos + 2)) <<< 8) ||| at8 bytes (pos + 3)
      if h0 &&& 0x7F = 0 then
        if pos + 4 + block_len > bytes.length then .error .ioError
        else
          let data := byteSlice bytes (pos + 4) (pos + 4 + block_len)
          if data.length < 18 then .error .ioError
          else
            let sample_rate := ((at8 data 10) <<< 12) |||
              ((at8 data 11) <<< 4) ||| (((at8 data 12) &&& 0xF0) >>> 4)
            let total_samples := ((at8 data 12 &&& 0x0F) <<< 32) |||
              ((at8 data 13) <<< 24) ||| ((at8 data 14) <<< 16) |||
              ((at8 data 15) <<< 8) ||| at8 data 16
            if sample_rate = 0 then .error .ioError
            else .ok (total_samples * 1000 / sample_rate)
      else
        if at8 bytes pos &&& 0x80 ≠ 0 then .error .ioError
        else flac_durationGo bytes fuel (pos + 4 + block_len)

/-- `SongMetadata::flac_duration`. -/
def flac_duration (bytes : List Nat) : Except PErr Nat :=
  flac_durationGo bytes (bytes.length + 1) 4

/-- The `mvhd` payload interpretation inside `m4a_duration`.  The version-1
branch multiplies a full 64-bit duration by 1000 in `u64`: the model flags the
overflowing case (a debug-profile panic) as `PErr.overflow`. -/
def mvhdParse (data : List Nat) (j : Nat) : Except PErr Nat :=
  let version := at8 data (j + 8)
  if version = 1 then
    if j + 36 > data.length then .error .ioError
    else
      let timescale := beU32at data (j + 24)
      let duration := beU64at data (j + 28)
      if timescale = 0 then .error .ioError
      else if duration * 1000 ≥ 2 ^ 64 then .error .overflow
      else .ok (duration * 1000 / timescale)
  else
    if j + 28 > data.length then .error .ioError
    else
      let timescale := beU32at data (j + 20)
      let duration := beU32at data (j + 24)
      if timescale = 0 then .error .ioError
      else .ok (duration * 1000 / timescale)

/-- The `mvhd` search inside a `moov` atom (`m4a_duration`); `none` means the
inner walk fell through and the outer walk continues. -/
def m4aInnerGo (data : List Nat) (iEnd : Nat) :
    Nat → Nat → Option (Except PErr Nat)
  | 0, _ => none
  | fuel + 1, j =>
    if j + 8 > iEnd then none
    else
      let sub_size := beU32at data j
      if sub_size < 8 ∨ j + sub_size > data.length then none
      else if byteSlice data (j + 4) (j + 8) = bmvhd then some (mvhdParse data j)
      else m4aInnerGo data iEnd fuel (j + sub_size)

/-- The top-level atom loop of `m4a_duration`; `i` advances by at least 8 per
iteration, so fuel `data.length + 1` is never exhausted. -/
def m4a_durationGo (data : List Nat) : Nat → Nat → Except PErr Nat
  | 0, _ => .error .ioError
  | fuel + 1, i =>
    if i + 8 > data.length then .error .ioError
    else
      let size := beU32at data i
      if size < 8 ∨ i + size > data.length then .error .ioError
      else if byteSlice data (i + 4) (i + 8) = bmoov then
        match m4aInnerGo data (i + size) (size + 1) (i + 8) with
        | some r => r
        | none => m4a_durationGo data fuel (i + size)
      else m4a_durationGo data fuel (i + size)

/-- `SongMetadata::m4a_duration`. -/
def m4a_duration (data : List Nat) : Except PErr Nat :=
  m4a_durationGo data (data.length + 1) 0

/-- MPEG version decoded from the two version bits (the source uses the `f64`
values `2.5`, `2.0`, `1.0`). -/
inductive MpegV where
  | v1
  | v2
  | v25
deriving Repr, DecidableEq

/-- `bitrate_table_mpeg1_layer3` from `mp3_duration`. -/
def bitrate_table_mpeg1_layer3 : List Nat :=
  [0, 32, 40, 48, 56, 64, 80, 96, 112, 128, 160, 192, 224, 256, 320, 0]

/-- `bitrate_table_mpeg2_layer3` from `mp3_duration`. -/
def bitrate_table_mpeg2_layer3 : List Nat :=
  [0, 8, 16, 24, 32, 40, 48, 56, 64, 80, 96, 112, 128, 144, 160, 0]

/-- The frame-scanning loop of `mp3_duration`, returning the accumulated
`(total_samples, last_sample_rate)`.  The fuel argument is the source's own
iteration budget: the loop runs while `iterations < max_iterations`, and the
model starts the recursion with exactly `max_iterations = 2 * all.len()`. -/
def mp3Go (all : List Nat) : Nat → Nat → Nat → Nat → Nat × Nat
  | 0, _, ts, sr => (ts, sr)
  | fuel + 1, pos, ts, sr =>
    if pos + 4 > all.length then (ts, sr)
    else
      let b1 := at8 all pos
      let b2 := at8 all (pos + 1)
      if b1 = 0xFF ∧ b2 &&& 0xE0 = 0xE0 then
        let version_bits := (b2 >>> 3) &&& 0x03
        let layer_bits := (b2 >>> 1) &&& 0x03
        let h2 := at8 all (pos + 2)
        let bitrate_index := (h2 >>> 4) &&& 0x0F
        let sample_rate_index := (h2 >>> 2) &&& 0x03
        let padding := (h2 >>> 1) &&& 0x01
        let mv? : Option MpegV :=
          if version_bits = 0 then some .v25
          else if version_bits = 2 then some .v2
          else if version_bits = 3 then some .v1
          else none
        match mv? with
        | none => mp3Go all fuel (pos + 1) ts sr
        | some mv =>
          if layer_bits ≠ 1 then mp3Go all fuel (pos + 1) ts sr
          else
            let srate? : Option Nat :=
              match mv, sample_rate_index with
              | .v1, 0 => some 44100
              | .v1, 1 => some 48000
              | .v1, 2 => some 32000
              | .v2, 0 => some 22050
              | .v2, 1 => some 24000
              | .v2, 2 => some 16000
              | .v25, 0 => some 11025
              | .v25, 1 => some 12000
              | .v25, 2 => some 8000
              | _, _ => none
            match srate? with
            | none => mp3Go all fuel (pos + 1) ts sr
            | some srate =>
              let br :=
                (if mv = .v1 then bitrate_table_mpeg1_layer3
                  else bitrate_table_mpeg2_layer3).getD bitrate_index 0
              if br = 0 ∨ srate = 0 then mp3Go all fuel (pos + 1) ts sr
              else
                let frame_size :=
                  (if mv = .v1 then 144000 * br / srate
                    else 72000 * br / srate) + padding
                if frame_size = 0 then mp3Go all fuel (pos + 1) ts sr
                else
                  let samples := if mv = .v1 then 1152 else 576
                  if pos + frame_size > all.length then (ts, sr)
                  else mp3Go all fuel (pos + frame_size) (ts + samples) srate
      else mp3Go all fuel (pos + 1) ts sr

/-- The scan start position of `mp3_duration`: past the ID3v2 tag when one is
present (`pos = 10 + tag_size`), else 0. -/
def mp3StartPos (bytes : List Nat) : Nat :=
  if bytes.length ≥ 10 ∧ byteSlice bytes 0 3 = bID3 then
    10 + synchsafe_to_u32 (byteSlice bytes 6 10)
  else 0

/-- `SongMetadata::mp3_duration`.  The accumulated sample count is `u128` in
the source and its `total_samples * 1000` product cannot overflow for any
addressable buffer; the final clamp to `u64::MAX` and the debug-profile
overflow of the `total_size * 8 * 1000` fallback product are modelled
explicitly. -/
def mp3_duration (bytes : List Nat) : Except PErr Nat :=
  let total_size := bytes.length
  let r := mp3Go bytes (2 * bytes.length) (mp3StartPos bytes) 0 0
  if r.1 > 0 ∧ r.2 > 0 then
    .ok (if r.1 * 1000 / r.2 > 2 ^ 64 - 1 then 2 ^ 64 - 1 else r.1 * 1000 / r.2)
  else if total_size > 0 then
    if total_size * 8 * 1000 ≥ 2 ^ 64 then .error .overflow
    else .ok (total_size * 8 * 1000 / 128000)
  else .error .ioError

/-! ## `lib.rs`: dispatcher -/

/-- Attach an estimator result to a record (`m.duration_ms = est(f).ok()`):
an `Err` is swallowed, a debug-profile overflow panic propagates. -/
def attachDuration (m : SongMetadata) : Except PErr Nat →
    Except PErr SongMetadata
  | .ok d => .ok { m with duration_ms := some d }
  | .error .ioError => .ok { m with duration_ms := none }
  | .error .overflow => .error .overflow

/-- The fallback branch's duration
(`m4a_duration(f).ok().or_else(|| mp3_duration(f).ok())`). -/
def fallbackDuration (bytes : List Nat) : Except PErr (Option Nat) :=
  match m4a_duration bytes with
  | .ok d => .ok (some d)
  | .error .overflow => .error .overflow
  | .error .ioError =>
    match mp3_duration bytes with
    | .ok d => .ok (some d)
    | .error .overflow => .error .overflow
    | .error .ioError => .ok none

/-- The `match &header[0..4]` block of `from_file`: tag pass plus duration
pass for the recognized container.  In the fallback branch a failed
`from_id3v1` leaves the file cursor at end-of-file, so the subsequent
`from_m4a`'s `read_to_end` sees an empty buffer. -/
def dispatchMeta (bytes : List Nat) : Except PErr SongMetadata :=
  if byteSlice bytes 0 4 = bRIFF ∧ byteSlice bytes 8 12 = bWAVE then
    match from_wav bytes with
    | .error e => .error e
    | .ok m => attachDuration m (wav_duration bytes)
  else if byteSlice bytes 0 4 = bfLaC then
    match from_flac bytes with
    | .error e => .error e
    | .ok m => attachDuration m (flac_duration bytes)
  else if byteSlice bytes 0 4 = bID3v3 ∨ byteSlice bytes 0 4 = bID3v4 then
    match from_mp3v2 bytes with
    | .error e => .error e
    | .ok m => attachDuration m (mp3_duration bytes)
  else
    let m :=
      match from_id3v1 bytes with
      | .ok m1 => m1
      | .error _ => from_m4a []
    match fallbackDuration bytes with
    | .error e => .error e
    | .ok d => .ok { m with duration_ms := d }

/-- `SongMetadata::from_file`, for a file that could be opened, given its
(plain file name) path and its bytes.  The initial `f.read(&mut header)`
returns fewer than 12 bytes exactly when the file is shorter than 12 bytes. -/
def from_file (path : List Char) (bytes : List Nat) :
    Except PErr SongMetadata :=
  if bytes.length < 12 then .ok (default_with_filename path)
  else
    match dispatchMeta bytes with
    | .error e => .error e
    | .ok meta =>
      .ok (if meta.title = none then
          { meta with title := some (prettify_filename path) }
        else meta)

/-! ## Spec-side definitions used to state claims -/

/-- Spec-side grouping from claim C3: the bytes grouped into 2-byte big-endian
code units, a trailing odd byte dropped. -/
def specPairsBE : List Nat → List Nat
  | a :: b :: r => (a * 256 + b) :: specPairsBE r
  | _ => []

/-- Spec-side FLAC STREAMINFO sample rate (claim C6): the 20-bit field packed
across bytes 10, 11 and the high nibble of byte 12. -/
def specFlacSampleRate (d : List Nat) : Nat :=
  at8 d 10 * 4096 + at8 d 11 * 16 + at8 d 12 / 16

/-- Spec-side FLAC STREAMINFO total-sample count (claim C6): the 36-bit field
packed across the low nibble of byte 12 and bytes 13..16. -/
def specFlacTotalSamples (d : List Nat) : Nat :=
  (at8 d 12 % 16) * 4294967296 + at8 d 13 * 16777216 + at8 d 14 * 65536 +
    at8 d 15 * 256 + at8 d 16

/-- The four little-endian bytes of a 32-bit value (used to build WAV chunk
headers in claim statements). -/
def leBytes4 (n : Nat) : List Nat :=
  [n % 256, n / 256 % 256, n / 65536 % 256, n / 16777216 % 256]

/-- A well-formed WAV chunk: id, little-endian declared size, payload of
exactly that size. -/
def wavChunk (id : List Nat) (payload : List Nat) : List Nat :=
  id ++ leBytes4 payload.length ++ payload

/-- A FLAC metadata-block header: flag/type byte and 24-bit big-endian
length. -/
def flacBlockHeader (flagByte len : Nat) : List Nat :=
  [flagByte, len / 65536, len / 256 % 256, len % 256]

/-- A well-formed FLAC metadata block. -/
def flacBlock (flagByte : Nat) (payload : List Nat) : List Nat :=
  flacBlockHeader flagByte payload.length ++ payload

/-- Concatenation of WAV chunks (claim C7). -/
def wavJoin (l : List (List Nat × List Nat)) : List Nat :=
  (l.map fun p => wavChunk p.1 p.2).flatten

/-- Well-formedness of a skipped WAV chunk in claim C7: a 4-byte id that is
neither `fmt ` nor `data`, and a declared size below `2 ^ 32`. -/
def IsOtherChunk (p : List Nat × List Nat) : Prop :=
  p.1.length = 4 ∧ p.1 ≠ bfmt ∧ p.1 ≠ bdata ∧ p.2.length < 2 ^ 32

/-- Concatenation of FLAC metadata blocks (claim C6). -/
def flacJoin (l : List (Nat × List Nat)) : List Nat :=
  (l.map fun p => flacBlock p.1 p.2).flatten

/-- Claim C8's frame shape: one valid MPEG1 Layer III frame at 128 kbps and
44100 Hz.  The second header byte is `0xFA`/`0xFB` (MPEG1, Layer III,
protection bit free), the third is `0x90`..`0x93` (bitrate index 9, sample
rate index 0, padding and private bits free), the fourth is arbitrary, and
the body has exactly `413 + padding` bytes, for a total frame length of
`floor(144000 * 128 / 44100) + padding = 417 + padding` bytes. -/
def IsCBRFrame (l : List Nat) : Prop :=
  ∃ v c d body,
    (v = 0xFA ∨ v = 0xFB) ∧
    (c = 0x90 ∨ c = 0x91 ∨ c = 0x92 ∨ c = 0x93) ∧
    l = 0xFF :: v :: c :: d :: body ∧
    body.length = 413 + ((c >>> 1) &&& 0x01)

/-! ## Concrete inputs used by counterexamples and witnesses -/

/-- A 12-byte file with an `ID3\x03` header whose synchsafe tag size (127)
exceeds the remaining 2 bytes. -/
def id3TruncatedFile : List Nat :=
  [0x49, 0x44, 0x33, 0x03, 0x00, 0x00, 0x00, 0x00, 0x00, 0x7F, 0x00, 0x00]

/-- A 24-byte WAV file whose `LIST` chunk declares size 0 and is followed by
the bytes `INFO`: reaching `chunk_size - 4`. -/
def wavUnderflowFile : List Nat :=
  bRIFF ++ [16, 0, 0, 0] ++ bWAVE ++ bLIST ++ [0, 0, 0, 0] ++ bINFO

/-- A 21-byte ID3v2 file whose single `TIT2` frame payload is just the
encoding byte `0`, so the decoded title is the empty string. -/
def id3EmptyTitleFile : List Nat :=
  [0x49, 0x44, 0x33, 0x03, 0, 0, 0, 0, 0, 11] ++
    bTIT2 ++ [0, 0, 0, 1] ++ [0, 0] ++ [0]

/-- A WAV file with a valid `fmt ` chunk (byte rate 176400) and a `data`
chunk whose 20-byte payload contains a pseudo-`fmt ` chunk with a zero byte
rate; the scanner walks into the payload and overwrites the byte rate. -/
def wavDataPayloadFile : List Nat :=
  bRIFF ++ [0, 0, 0, 0] ++ bWAVE ++
    bfmt ++ [16, 0, 0, 0] ++
    [0, 0, 0, 0, 0, 0, 0, 0, 0x10, 0xB1, 0x02, 0x00, 0, 0, 0, 0] ++
    bdata ++ [20, 0, 0, 0] ++
    bfmt ++ [12, 0, 0, 0] ++ [0, 0, 0, 0, 0, 0, 0, 0, 0, 0, 0, 0]

/-- A WAV file with a valid `fmt ` chunk (byte rate 176400) and a trailing
`data` chunk header declaring size 176400 with no stored payload. -/
def wavGoodFile : List Nat :=
  bRIFF ++ [0, 0, 0, 0] ++ bWAVE ++
    bfmt ++ [16, 0, 0, 0] ++
    [0, 0, 0, 0, 0, 0, 0, 0, 0x10, 0xB1, 0x02, 0x00, 0, 0, 0, 0] ++
    bdata ++ [0x10, 0xB1, 0x02, 0x00]

/-- A FLAC file whose single (last) metadata block is an 18-byte STREAMINFO
with sample rate 44100 and total samples 44100. -/
def flacGoodFile : List Nat :=
  bfLaC ++ [0x80, 0, 0, 18] ++
    [0, 0, 0, 0, 0, 0, 0, 0, 0, 0, 0x0A, 0xC4, 0x40, 0x00, 0x00, 0xAC, 0x44, 0x00]

/-- One valid MPEG1 Layer III frame at 128 kbps / 44100 Hz, padding bit
clear: 4 header bytes plus 413 body bytes. -/
def cbrFrame : List Nat := [0xFF, 0xFB, 0x90, 0x00] ++ List.replicate 413 0

/-- A 128-byte ID3v1 tag with one-letter title/artist/album and genre byte
7. -/
def id3v1File : List Nat :=
  bTAG ++ (0x41 :: List.replicate 29 0) ++ (0x42 :: List.replicate 29 0) ++
    (0x43 :: List.replicate 29 0) ++ List.replicate 34 0 ++ [7]

/-- The record `from_id3v1` extracts from `id3v1File`. -/
def id3v1Record : SongMetadata :=
  { artist := some ['B'], title := some ['A'], album := some ['C'],
    genre := some ['7'], duration_ms := none }

/-- The record `from_file` produces for the unrecognized 12-byte file used in
the C5 witness. -/
def c5WitnessRecord : SongMetadata :=
  { artist := none, title := some "Foo Bar Baz".toList, album := none,
    genre := none, duration_ms := some 0 }

/-! ## Bit-arithmetic toolkit -/

/-- Disjoint bitwise or is addition: if `a` is a multiple of `2 ^ k` and
`b < 2 ^ k` then `a ||| b = a + b`. -/
theorem lor_eq_add {a b k : Nat} (ha : a % 2 ^ k = 0) (hb : b < 2 ^ k) :
    a ||| b = a + b := by
  have hlow : ∀ i, i < k → a.testBit i = false := by
    intro i hi
    have h := Nat.testBit_mod_two_pow a k i
    rw [ha] at h
    simpa [Nat.zero_testBit, hi] using h.symm
  have hhigh : ∀ i, k ≤ i → b.testBit i = false := by
    intro i hi
    exact Nat.testBit_lt_two_pow
      (lt_of_lt_of_le hb (Nat.pow_le_pow_right (by norm_num) hi))
  have hmod : (a ||| b) % 2 ^ k = b := by
    apply Nat.eq_of_testBit_eq
    intro i
    rw [Nat.testBit_mod_two_pow, Nat.testBit_or]
    by_cases h : i < k
    · simp [h, hlow i h]
    · simp [h, hhigh i (le_of_not_lt h)]
  have hdiv : (a ||| b) >>> k = a >>> k := by
    apply Nat.eq_of_testBit_eq
    intro i
    rw [Nat.testBit_shiftRight, Nat.testBit_shiftRight, Nat.testBit_or,
      hhigh (k + i) (Nat.le_add_right _ _), Bool.or_false]
  have h1 := Nat.div_add_mod (a ||| b) (2 ^ k)
  have h2 := Nat.div_add_mod a (2 ^ k)
  rw [← Nat.shiftRight_eq_div_pow] at h1 h2
  rw [hdiv, hmod] at h1
  rw [ha, Nat.add_zero] at h2
  rw [h2] at h1
  exact h1.symm

/-- Masking with `2 ^ k - 1` is reduction mod `2 ^ k`. -/
theorem land_two_pow_sub_one (x k : Nat) : x &&& (2 ^ k - 1) = x % 2 ^ k := by
  apply Nat.eq_of_testBit_eq
  intro i
  rw [Nat.testBit_and, Nat.testBit_two_pow_sub_one, Nat.testBit_mod_two_pow,
    Bool.and_comm]

theorem land_7f (x : Nat) : x &&& 0x7F = x % 128 :=
  land_two_pow_sub_one x 7

theorem land_0f (x : Nat) : x &&& 0x0F = x % 16 :=
  land_two_pow_sub_one x 4

/-- For a byte, masking the top bit tests `128 ≤ d`. -/
theorem land_80_eq_zero_iff {d : Nat} (hd : d < 256) :
    d &&& 0x80 = 0 ↔ d < 128 := by
  revert hd
  revert d
  decide

/-- For a byte, the source's `(d &&& 0xF0) >>> 4` is the high nibble. -/
theorem byte_hi_nibble {d : Nat} (hd : d < 256) :
    (d &&& 0xF0) >>> 4 = d / 16 := by
  revert hd
  revert d
  decide

/-! ## List-access toolkit -/

theorem at8_drop (bs : List Nat) (p k : Nat) :
    at8 (bs.drop p) k = at8 bs (p + k) := by
  simp [at8, List.getD_eq_getElem?_getD, List.getElem?_drop]

theorem at8_append_right {bs₁ : List Nat} (bs₂ : List Nat) {n : Nat}
    (h : bs₁.length ≤ n) : at8 (bs₁ ++ bs₂) n = at8 bs₂ (n - bs₁.length) := by
  simp [at8, List.getD_eq_getElem?_getD, List.getElem?_append_right h]

theorem at8_cons_zero (x : Nat) (l : List Nat) : at8 (x :: l) 0 = x := rfl

theorem at8_cons_succ (x : Nat) (l : List Nat) (n : Nat) :
    at8 (x :: l) (n + 1) = at8 l n := rfl

theorem byteSlice_shift (bs : List Nat) (p a b : Nat) :
    byteSlice bs (p + a) (p + b) = byteSlice (bs.drop p) a b := by
  simp [byteSlice, List.drop_drop, Nat.add_comm a p, Nat.add_sub_add_left]

theorem drop_of_drop_eq {bs rest : List Nat} {p : Nat} (pre : List Nat)
    (h : bs.drop p = pre ++ rest) : bs.drop (p + pre.length) = rest := by
  rw [← List.drop_drop, h, List.drop_left]

/-! ## Tag parsers never set `duration_ms` -/

theorem vorbisApply_duration (meta : SongMetadata) (s : List Char) :
    (vorbisApply meta s).duration_ms = meta.duration_ms := by
  unfold vorbisApply
  cases splitn2Eq s with
  | none => rfl
  | some kv =>
    obtain ⟨k, v⟩ := kv
    simp only
    split_ifs <;> rfl

theorem vorbisLoop_duration (data : List Nat) (n : Nat) :
    ∀ idx meta, (vorbisLoop data n idx meta).duration_ms = meta.duration_ms := by
  induction n with
  | zero => intro idx meta; rfl
  | succ n ih =>
    intro idx meta
    rw [vorbisLoop]
    split
    · rfl
    · dsimp only
      split
      · rfl
      · rw [ih]
        split
        · rw [vorbisApply_duration]
        · rfl

theorem parse_vorbis_comments_duration (meta : SongMetadata)
    (data : List Nat) :
    (parse_vorbis_comments meta data).duration_ms = meta.duration_ms := by
  unfold parse_vorbis_comments
  split
  · rfl
  · dsimp only
    split
    · rfl
    · rw [vorbisLoop_duration]

theorem wavInfoGo_duration (bytes : List Nat) (fuel : Nat) :
    ∀ pos remaining meta p m,
      wavInfoGo bytes fuel pos remaining meta = .ok (p, m) →
      m.duration_ms = meta.duration_ms := by
  induction fuel with
  | zero =>
    intro pos remaining meta p m h
    simp only [wavInfoGo] at h
    cases h
    rfl
  | succ fuel ih =>
    intro pos remaining meta p m h
    rw [wavInfoGo] at h
    split at h
    · cases h; rfl
    · split at h
      · cases h; rfl
      · dsimp only at h
        split at h
        · cases h
        · have := ih _ _ _ _ _ h
          rw [this]
          split_ifs <;> rfl

theorem from_wavGo_duration (bytes : List Nat) (fuel : Nat) :
    ∀ pos meta m, from_wavGo bytes fuel pos meta = .ok m →
      m.duration_ms = meta.duration_ms := by
  induction fuel with
  | zero =>
    intro pos meta m h
    simp only [from_wavGo] at h
    cases h
    rfl
  | succ fuel ih =>
    intro pos meta m h
    rw [from_wavGo] at h
    split at h
    · cases h; rfl
    · dsimp only at h
      split at h
      · split at h
        · cases h
        · split at h
          · split at h
            · cases h
            · split at h
              · cases h
              next p2 m2 heq =>
                rw [ih _ _ _ h, wavInfoGo_duration bytes _ _ _ _ _ _ heq]
          · exact ih _ _ _ h
      · exact ih _ _ _ h

theorem mp3v2Go_duration (tag : List Nat) (fuel : Nat) :
    ∀ i meta, (mp3v2Go tag fuel i meta).duration_ms = meta.duration_ms := by
  induction fuel with
  | zero => intro i meta; rfl
  | succ fuel ih =>
    intro i meta
    rw [mp3v2Go]
    split
    · rfl
    · dsimp only
      split
      · rfl
      · rw [ih]
        split_ifs <;> rfl

theorem from_flacGo_duration (bytes : List Nat) (fuel : Nat) :
    ∀ pos meta m, from_flacGo bytes fuel pos meta = .ok m →
      m.duration_ms = meta.duration_ms := by
  induction fuel with
  | zero =>
    intro pos meta m h
    simp only [from_flacGo] at h
    cases h
    rfl
  | succ fuel ih =>
    intro pos meta m h
    rw [from_flacGo] at h
    split at h
    · cases h; rfl
    · dsimp only at h
      split at h
      · split at h
        · cases h
        · split at h
          · cases h
            rw [parse_vorbis_comments_duration]
          · rw [ih _ _ _ h, parse_vorbis_comments_duration]
      · split at h
        · cases h; rfl
        · exact ih _ _ _ h

theorem from_m4aGo_duration (data : List Nat) (fuel : Nat) :
    ∀ i meta, (from_m4aGo data fuel i meta).duration_ms = meta.duration_ms := by
  induction fuel with
  | zero => intro i meta; rfl
  | succ fuel ih =>
    intro i meta
    rw [from_m4aGo]
    split
    · rfl
    · dsimp only
      split
      · rfl
      · rw [ih]
        split_ifs <;> rfl

/-- C10: every tag parser (`from_wav`, `from_id3v1`, `from_mp3v2`,
`from_flac`, `from_m4a`) returns a record whose `duration_ms` field is
`none`; tag parsing never produces a duration, which is assigned only
afterwards by the dispatcher from the separate duration estimators. -/
theorem c10_parsers_no_duration :
    (∀ bytes m, from_wav bytes = .ok m → m.duration_ms = none) ∧
    (∀ bytes m, from_id3v1 bytes = .ok m → m.duration_ms = none) ∧
    (∀ bytes m, from_mp3v2 bytes = .ok m → m.duration_ms = none) ∧
    (∀ bytes m, from_flac bytes = .ok m → m.duration_ms = none) ∧
    (∀ bytes, (from_m4a bytes).duration_ms = none) := by
  refine ⟨?_, ?_, ?_, ?_, ?_⟩
  · intro bytes m h
    exact from_wavGo_duration bytes _ _ _ _ h
  · intro bytes m h
    unfold from_id3v1 at h
    split at h
    · cases h
    · dsimp only at h
      split at h
      · cases h
      · injection h with h3
        rw [← h3]
  · intro bytes m h
    unfold from_mp3v2 at h
    split at h
    · cases h
    · split at h
      · cases h
      · dsimp only at h
        split at h
        · cases h
        · injection h with h3
          rw [← h3, mp3v2Go_duration]
          rfl
  · intro bytes m h
    unfold from_flac at h
    split at h
    · cases h
    · split at h
      · cases h
      · exact from_flacGo_duration bytes _ _ _ _ h
  · intro bytes
    exact from_m4aGo_duration bytes _ _ _

/-- Witness for C10 at a concrete input: the ID3v1 example file parses
successfully and the theorem yields `duration_ms = none`. -/
theorem c10_parsers_no_duration_witness :
    from_id3v1 id3v1File =
      .ok { artist := some ['B'], title := some ['A'], album := some ['C'],
            genre := some ['7'], duration_ms := none } ∧
    ∀ m, from_id3v1 id3v1File = .ok m → m.duration_ms = none := by
  refine ⟨by decide, ?_⟩
  exact c10_parsers_no_duration.2.1 id3v1File

/-! ## C2: the `chunk_size - 4` underflow in `from_wav` -/

/-- C2 (code bug): the claim says no parser panics and every arithmetic
operation stays in range, naming `from_wav`'s `chunk_size - 4`; but on a
24-byte WAV file whose `LIST` chunk declares size 0 and is followed by
`INFO`, `from_wav` computes `0u64 - 4`, which underflows (a panic in
debug builds, a wrap-around in release builds). -/
theorem c2_wav_list_underflow :
    from_wav wavUnderflowFile = .error .overflow := by decide

/-! ## C1: error propagation of `from_file` -/

theorem attachDuration_error {m : SongMetadata} {d : Except PErr Nat}
    {e : PErr} (h : attachDuration m d = .error e) :
    e = .overflow ∧ d = .error .overflow := by
  cases d with
  | ok v => exact Except.noConfusion h
  | error pe =>
    cases pe with
    | ioError => exact Except.noConfusion h
    | overflow =>
      simp only [attachDuration] at h
      injection h with h1
      exact ⟨h1.symm, rfl⟩

theorem fallbackDuration_error {bytes : List Nat} {e : PErr}
    (h : fallbackDuration bytes = .error e) :
    e = .overflow ∧ (m4a_duration bytes = .error .overflow ∨
      mp3_duration bytes = .error .overflow) := by
  unfold fallbackDuration at h
  cases h4 : m4a_duration bytes with
  | ok d => rw [h4] at h; cases h
  | error pe =>
    rw [h4] at h
    cases pe with
    | overflow =>
      injection h with h1
      exact ⟨h1.symm, .inl rfl⟩
    | ioError =>
      cases h3 : mp3_duration bytes with
      | ok d => rw [h3] at h; cases h
      | error pe2 =>
        rw [h3] at h
        cases pe2 with
        | overflow =>
          injection h with h1
          exact ⟨h1.symm, .inr rfl⟩
        | ioError => cases h

theorem fallbackDuration_ok_none {bytes : List Nat}
    (h : fallbackDuration bytes = .ok none) :
    mp3_duration bytes = .error .ioError := by
  unfold fallbackDuration at h
  cases h4 : m4a_duration bytes with
  | ok d => rw [h4] at h; cases h
  | error pe =>
    rw [h4] at h
    cases pe with
    | overflow => cases h
    | ioError =>
      cases h3 : mp3_duration bytes with
      | ok d => rw [h3] at h; cases h
      | error pe2 =>
        cases pe2 with
        | overflow => rw [h3] at h; cases h
        | ioError => rfl

/-- C1 (amended): `from_file` does propagate a hard failure for some openable
files with 12 readable header bytes, but only when the sniffed container is
WAV, FLAC or ID3v2 and that container's tag parser itself fails a required
read (exactly the claim's truncated-tag examples), or when a debug-profile
overflow panic arises in a parser or duration estimator; a file shorter than
12 bytes or with an unrecognized header always yields `Ok`.  Conversely, a
recognized ID3v2 header whose tag parser fails makes `from_file` propagate
that failure. -/
theorem c1_amended :
    (∀ path bytes e, from_file path bytes = .error e →
      12 ≤ bytes.length ∧
      ((byteSlice bytes 0 4 = bRIFF ∧ byteSlice bytes 8 12 = bWAVE ∧
          (from_wav bytes = .error e ∨
            (e = .overflow ∧ wav_duration bytes = .error .overflow))) ∨
        (byteSlice bytes 0 4 = bfLaC ∧
          (from_flac bytes = .error e ∨
            (e = .overflow ∧ flac_duration bytes = .error .overflow))) ∨
        ((byteSlice bytes 0 4 = bID3v3 ∨ byteSlice bytes 0 4 = bID3v4) ∧
          (from_mp3v2 bytes = .error e ∨
            (e = .overflow ∧ mp3_duration bytes = .error .overflow))) ∨
        (e = .overflow ∧
          (m4a_duration bytes = .error .overflow ∨
            mp3_duration bytes = .error .overflow)))) ∧
    (∀ path bytes e, 12 ≤ bytes.length →
      (byteSlice bytes 0 4 = bID3v3 ∨ byteSlice bytes 0 4 = bID3v4) →
      from_mp3v2 bytes = .error e → from_file path bytes = .error e) := by
  constructor
  · intro path bytes e h
    unfold from_file at h
    split at h
    · cases h
    · refine ⟨by omega, ?_⟩
      cases hd : dispatchMeta bytes with
      | ok meta => rw [hd] at h; cases h
      | error e2 =>
        rw [hd] at h
        injection h with h1
        subst h1
        unfold dispatchMeta at hd
        split at hd
        next hriff =>
          refine .inl ⟨hriff.1, hriff.2, ?_⟩
          cases hw : from_wav bytes with
          | error ew => rw [hw] at hd; injection hd with h2; rw [h2]; exact .inl rfl
          | ok m =>
            rw [hw] at hd
            exact .inr (attachDuration_error hd)
        next =>
          split at hd
          next hflac =>
            refine .inr (.inl ⟨hflac, ?_⟩)
            cases hw : from_flac bytes with
            | error ew =>
              rw [hw] at hd; injection hd with h2; rw [h2]; exact .inl rfl
            | ok m =>
              rw [hw] at hd
              exact .inr (attachDuration_error hd)
          next =>
            split at hd
            next hid3 =>
              refine .inr (.inr (.inl ⟨hid3, ?_⟩))
              cases hw : from_mp3v2 bytes with
              | error ew =>
                rw [hw] at hd; injection hd with h2; rw [h2]; exact .inl rfl
              | ok m =>
                rw [hw] at hd
                exact .inr (attachDuration_error hd)
            next =>
              refine .inr (.inr (.inr ?_))
              dsimp only at hd
              cases hf : fallbackDuration bytes with
              | ok d => rw [hf] at hd; cases hd
              | error e3 =>
                rw [hf] at hd
                injection hd with h2
                subst h2
                exact fallbackDuration_error hf
  · intro path bytes e hlen hhdr hp
    unfold from_file
    rw [if_neg (by omega)]
    unfold dispatchMeta
    have hnr : ¬(byteSlice bytes 0 4 = bRIFF ∧ byteSlice bytes 8 12 = bWAVE) := by
      rintro ⟨hr, -⟩
      rcases hhdr with h | h <;> exact absurd (h.symm.trans hr) (by decide)
    have hnf : ¬byteSlice bytes 0 4 = bfLaC := by
      intro hr
      rcases hhdr with h | h <;> exact absurd (h.symm.trans hr) (by decide)
    rw [if_neg hnr, if_neg hnf, if_pos hhdr, hp]

/-- Witness for C1 (amended), second conjunct: the truncated ID3v2 file makes
`from_file` propagate the parser's failure. -/
theorem c1_amended_witness :
    from_file "y.mp3".toList id3TruncatedFile = .error .ioError :=
  c1_amended.2 "y.mp3".toList id3TruncatedFile .ioError (by decide)
    (.inl (by decide)) (by decide)

/-- C1 counterexample: a 12-byte file with a recognized `ID3\x03` header whose
synchsafe tag size (127) exceeds the remaining bytes makes `from_file` return
`Err`, not `Ok`. -/
theorem c1_counterexample :
    from_file "x.mp3".toList id3TruncatedFile = .error .ioError := by decide

/-! ## C3: `decode_text_frame` -/

theorem u16beUnits_eq_specPairsBE : ∀ l : List Nat, u16beUnits l = specPairsBE l
  | [] => rfl
  | [_] => rfl
  | a :: b :: r => by
    show (a * 256 + b) :: u16beUnits r = (a * 256 + b) :: specPairsBE r
    rw [u16beUnits_eq_specPairsBE r]

/-- C3 counterexample: for encoding selector 0 the payload byte `0xE9` decodes
to `U+FFFD` (lossy UTF-8), not to the one-character Latin-1 string `U+00E9`
the claim requires. -/
theorem c3_counterexample :
    decode_text_frame [0, 0xE9] = some [replacementChar] ∧
    decode_text_frame [0, 0xE9] ≠ some [Char.ofNat 0xE9] := by
  constructor
  · decide
  · decide

/-- C3 (amended): selector 0 yields the lossy UTF-8 decoding (not Latin-1) of
the remaining bytes, NUL-trimmed; selector 1 yields the lossy UTF-16BE
decoding of the remaining bytes grouped into 2-byte big-endian code units
(dropping a trailing odd byte), NUL-trimmed; any other selector and the empty
payload yield no text; in particular the single byte `0xE9` under selector 0
decodes to `U+FFFD`. -/
theorem c3_amended :
    (∀ rest, decode_text_frame (0 :: rest) =
      some (trimMatchesChar nulChar (utf8Lossy rest))) ∧
    (∀ rest, decode_text_frame (1 :: rest) =
      some (trimMatchesChar nulChar (utf16Lossy (specPairsBE rest)))) ∧
    (∀ e rest, 2 ≤ e → decode_text_frame (e :: rest) = none) ∧
    decode_text_frame [] = none ∧
    decode_text_frame [0, 0xE9] = some [replacementChar] := by
  refine ⟨fun rest => rfl, fun rest => ?_, fun e rest he => ?_, rfl, by decide⟩
  · show some (trimMatchesChar nulChar (utf16Lossy (u16beUnits rest))) = _
    rw [u16beUnits_eq_specPairsBE]
  · simp only [decode_text_frame]
    rw [if_neg (by omega), if_neg (by omega)]

/-- Witness for C3 (amended): the third conjunct applied at selector 2. -/
theorem c3_amended_witness : decode_text_frame [2, 0x41] = none :=
  c3_amended.2.2.1 2 [0x41] (by omega)

/-! ## C4: empty / whitespace-only text fields -/

theorem dropWhile_head_false {α : Type} (p : α → Bool) :
    ∀ l : List α, ∀ c cs, l.dropWhile p = c :: cs → p c = false := by
  intro l
  induction l with
  | nil => intro c cs h; cases h
  | cons x xs ih =>
    intro c cs h
    rw [List.dropWhile_cons] at h
    split at h
    · exact ih _ _ h
    next hpx =>
      cases h
      simpa using hpx

theorem trimEndP_cons {p : Char → Bool} {l : List Char} {c : Char}
    {cs : List Char} (h : trimEndP p l = c :: cs) :
    ∃ t, l = (c :: cs) ++ t := by
  unfold trimEndP at h
  obtain ⟨t', ht'⟩ := List.dropWhile_suffix (l := l.reverse) (p := p)
  refine ⟨t'.reverse, ?_⟩
  have : l = (l.reverse.dropWhile p).reverse ++ t'.reverse := by
    conv_lhs => rw [← l.reverse_reverse, ← ht']
    rw [List.reverse_append]
  rw [this, h]

theorem rustTrim_head_not_ws {l : List Char} {c : Char} {cs : List Char}
    (h : rustTrim l = c :: cs) : rustIsWhitespace c = false := by
  unfold rustTrim at h
  obtain ⟨t, ht⟩ := trimEndP_cons h
  exact dropWhile_head_false rustIsWhitespace l c (cs ++ t) ht

theorem trim_id3v1_text_some {b : List Nat} {s : List Char}
    (h : trim_id3v1_text b = some s) :
    s ≠ [] ∧ s.all rustIsWhitespace = false := by
  unfold trim_id3v1_text at h
  dsimp only at h
  split at h
  · cases h
  next hne =>
    injection h with h1
    cases hs : rustTrim (trimEndP (· == nulChar) (utf8Lossy b)) with
    | nil => exact absurd (by rw [hs]; rfl) hne
    | cons c cs =>
      rw [hs] at h1
      subst h1
      refine ⟨by simp, ?_⟩
      simp [List.all_cons, rustTrim_head_not_ws hs]

theorem decStrGo_ne_nil : ∀ fuel n, decStrGo fuel n ≠ [] := by
  intro fuel n
  cases fuel with
  | zero => simp [decStrGo]
  | succ fuel =>
    rw [decStrGo]
    split <;> simp

/-- C4 counterexample: an ID3v2 file whose `TIT2` frame payload is only the
encoding byte yields a record whose title is `Some ""` — an empty string
stored as present, where the claim requires `None`. -/
theorem c4_counterexample :
    from_file "x.mp3".toList id3EmptyTitleFile =
      .ok { artist := none, title := some [], album := none, genre := none,
            duration_ms := some 1 } := by decide

/-- C4 (amended): only the ID3v1 parser treats empty or whitespace-only text
as absent: every `Some` field of a record produced by `from_id3v1` holds a
nonempty string that is not whitespace-only (the genre is a nonempty decimal
string).  The other parsers can store `Some` of an empty string, as the
counterexample shows. -/
theorem c4_amended :
    ∀ bytes m, from_id3v1 bytes = .ok m →
      (∀ s, m.artist = some s → s ≠ [] ∧ s.all rustIsWhitespace = false) ∧
      (∀ s, m.title = some s → s ≠ [] ∧ s.all rustIsWhitespace = false) ∧
      (∀ s, m.album = some s → s ≠ [] ∧ s.all rustIsWhitespace = false) ∧
      (∀ s, m.genre = some s → s ≠ []) := by
  intro bytes m h
  unfold from_id3v1 at h
  split at h
  · cases h
  · dsimp only at h
    split at h
    · cases h
    · injection h with h3
      have hart : m.artist = trim_id3v1_text
          (byteSlice (List.drop (bytes.length - 128) bytes) 33 63) := by
        rw [← h3]
      have htit : m.title = trim_id3v1_text
          (byteSlice (List.drop (bytes.length - 128) bytes) 3 33) := by
        rw [← h3]
      have halb : m.album = trim_id3v1_text
          (byteSlice (List.drop (bytes.length - 128) bytes) 63 93) := by
        rw [← h3]
      have hgen : m.genre =
          some (decStr (at8 (List.drop (bytes.length - 128) bytes) 127)) := by
        rw [← h3]
      refine ⟨fun s hs => ?_, fun s hs => ?_, fun s hs => ?_, fun s hs => ?_⟩
      · rw [hart] at hs
        exact trim_id3v1_text_some hs
      · rw [htit] at hs
        exact trim_id3v1_text_some hs
      · rw [halb] at hs
        exact trim_id3v1_text_some hs
      · rw [hgen] at hs
        injection hs with h4
        rw [← h4]
        exact decStrGo_ne_nil _ _

/-- Witness for C4 (amended) at the concrete ID3v1 file: the parsed title
`"A"` is nonempty and not whitespace-only. -/
theorem c4_amended_witness :
    ['A'] ≠ ([] : List Char) ∧ (['A'].all rustIsWhitespace) = false :=
  (c4_amended id3v1File id3v1Record (by decide)).2.1 ['A'] (by decide)

/-! ## C5: the synthesized title -/

/-- C5: `from_file` always returns a record whose title is present; when the
tag pass produced no title it is the deterministic prettification of the file
name, and `prettify_filename` maps `"foo_bar-baz.mp3"` to `"Foo Bar Baz"` and
a stem-less path to `"Unknown"`. -/
theorem c5_title_always_present :
    (∀ path bytes m, from_file path bytes = .ok m → m.title ≠ none) ∧
    (∀ path bytes meta, ¬bytes.length < 12 → dispatchMeta bytes = .ok meta →
      meta.title = none →
      from_file path bytes =
        .ok { meta with title := some (prettify_filename path) }) ∧
    prettify_filename "foo_bar-baz.mp3".toList = "Foo Bar Baz".toList ∧
    prettify_filename "".toList = "Unknown".toList := by
  refine ⟨?_, ?_, by decide, by decide⟩
  · intro path bytes m h
    unfold from_file at h
    split at h
    · injection h with h1
      rw [← h1]
      simp [default_with_filename]
    · cases hd : dispatchMeta bytes with
      | error e => rw [hd] at h; cases h
      | ok meta =>
        rw [hd] at h
        injection h with h1
        rw [← h1]
        split
        · simp
        next hne => exact hne
  · intro path bytes meta hlen hd ht
    unfold from_file
    rw [if_neg hlen, hd]
    dsimp only
    rw [if_pos ht]

/-- Witness for C5 at a concrete input: a 12-byte unrecognized file gets the
prettified file name as title. -/
theorem c5_title_always_present_witness : c5WitnessRecord.title ≠ none :=
  c5_title_always_present.1 "foo_bar-baz.mp3".toList
    [1, 2, 3, 4, 5, 6, 7, 8, 9, 10, 11, 12] c5WitnessRecord (by decide)

/-! ## C9: the constant-bitrate fallback of `mp3_duration` -/

theorem mp3_duration_ok (bytes : List Nat) (h1 : bytes ≠ [])
    (h2 : bytes.length * 8 * 1000 < 2 ^ 64) :
    ∃ d, mp3_duration bytes = .ok d := by
  unfold mp3_duration
  dsimp only
  split
  · exact ⟨_, rfl⟩
  · rw [if_pos (show bytes.length > 0 from List.length_pos.mpr h1),
      if_neg (by omega)]
    exact ⟨_, rfl⟩

/-- C9: whenever the MPEG frame scan accumulates zero samples on a nonempty
file, `mp3_duration` returns the constant-bitrate estimate
`size * 8 * 1000 / 128000`; it fails only on a zero-byte file, and every file
reaching the dispatcher's fallback branch receives a present duration.  (The
two arithmetic side conditions exclude the debug-profile overflow panics of
`total_size * 8 * 1000` and of `m4a_duration`, which are unreachable for real
buffers or swallowed in release builds.) -/
theorem c9_mp3_zero_frames_fallback :
    (∀ bytes, bytes ≠ [] → bytes.length * 8 * 1000 < 2 ^ 64 →
      (mp3Go bytes (2 * bytes.length) (mp3StartPos bytes) 0 0).1 = 0 →
      mp3_duration bytes = .ok (bytes.length * 8 * 1000 / 128000)) ∧
    mp3_duration [] = .error .ioError ∧
    (∀ bytes, bytes ≠ [] → bytes.length * 8 * 1000 < 2 ^ 64 →
      ∃ d, mp3_duration bytes = .ok d) ∧
    (∀ path bytes, 12 ≤ bytes.length → bytes.length * 8 * 1000 < 2 ^ 64 →
      ¬(byteSlice bytes 0 4 = bRIFF ∧ byteSlice bytes 8 12 = bWAVE) →
      byteSlice bytes 0 4 ≠ bfLaC →
      ¬(byteSlice bytes 0 4 = bID3v3 ∨ byteSlice bytes 0 4 = bID3v4) →
      m4a_duration bytes ≠ .error .overflow →
      ∃ m, from_file path bytes = .ok m ∧ m.duration_ms ≠ none) := by
  have hne_of_len : ∀ bytes : List Nat, 12 ≤ bytes.length → bytes ≠ [] := by
    intro bytes h hEq
    rw [hEq] at h
    simp at h
  refine ⟨?_, by decide, ?_, ?_⟩
  · intro bytes hne hsm hzero
    unfold mp3_duration
    dsimp only
    rw [if_neg (fun hc => by omega)]
    rw [if_pos (show bytes.length > 0 from List.length_pos.mpr hne),
      if_neg (by omega)]
  · exact fun bytes h1 h2 => mp3_duration_ok bytes h1 h2
  · intro path bytes hlen hsm hw hf h3 hm4
    obtain ⟨dmp, hdmp⟩ := mp3_duration_ok bytes (hne_of_len bytes hlen) hsm
    unfold from_file
    rw [if_neg (by omega)]
    unfold dispatchMeta
    rw [if_neg hw, if_neg hf, if_neg h3]
    dsimp only
    cases hfb : fallbackDuration bytes with
    | error e2 =>
      exfalso
      obtain ⟨-, hsrc⟩ := fallbackDuration_error hfb
      rcases hsrc with hsrc | hsrc
      · exact hm4 hsrc
      · rw [hdmp] at hsrc
        cases hsrc
    | ok d =>
      cases d with
      | none =>
        exfalso
        have := fallbackDuration_ok_none hfb
        rw [hdmp] at this
        cases this
      | some v =>
        dsimp only
        refine ⟨_, rfl, ?_⟩
        split <;> simp

/-- Witness for C9: the one-byte file parses zero frames and receives the
constant-bitrate estimate. -/
theorem c9_mp3_zero_frames_fallback_witness : mp3_duration [0] = .ok 0 :=
  c9_mp3_zero_frames_fallback.1 [0] (by decide) (by decide) (by decide)

/-! ## C6: `flac_duration` -/

theorem at8_lt {l : List Nat} (h : ∀ b ∈ l, b < 256) (i : Nat) :
    at8 l i < 256 := by
  unfold at8
  rw [List.getD_eq_getElem?_getD]
  cases hg : l[i]? with
  | none => simp
  | some v => simpa using h v (List.getElem?_mem hg)

theorem flacBlock_length (f : Nat) (p : List Nat) :
    (flacBlock f p).length = 4 + p.length := by
  simp only [flacBlock, flacBlockHeader, List.length_append, List.length_cons,
    List.length_nil]

theorem at8_of_drop {bytes pre rest : List Nat} {pos : Nat}
    (h : bytes.drop pos = pre ++ rest) (k : Nat) (hk : k < pre.length) :
    at8 bytes (pos + k) = at8 pre k := by
  rw [← at8_drop, h]
  unfold at8
  rw [List.getD_eq_getElem?_getD, List.getD_eq_getElem?_getD,
    List.getElem?_append]
  rw [if_pos hk]

/-- Reassembling a 24-bit big-endian length from its three bytes, as the FLAC
block walk does, is the identity. -/
theorem flac_len_roundtrip {len : Nat} (h : len < 2 ^ 24) :
    ((len / 65536) <<< 16) ||| ((len / 256 % 256) <<< 8) ||| (len % 256) =
      len := by
  have h1 : (len / 65536) <<< 16 ||| (len / 256 % 256) <<< 8 =
      len / 65536 * 65536 + len / 256 % 256 * 256 := by
    rw [Nat.shiftLeft_eq, Nat.shiftLeft_eq]
    exact lor_eq_add (k := 16) (by omega) (by omega)
  rw [h1, lor_eq_add (k := 8) (by omega) (by omega)]
  omega

/-- The four header bytes a FLAC block walk reads at the head of a
well-formed block. -/
theorem flac_header_reads {bytes : List Nat} {pos f : Nat}
    {payload rest : List Nat}
    (h : bytes.drop pos = flacBlock f payload ++ rest)
    (hlen : payload.length < 2 ^ 24) :
    at8 bytes pos = f ∧
    ((at8 bytes (pos + 1)) <<< 16) ||| ((at8 bytes (pos + 2)) <<< 8) |||
        at8 bytes (pos + 3) = payload.length := by
  have e0 := at8_of_drop h 0 (by rw [flacBlock_length]; omega)
  have e1 := at8_of_drop h 1 (by rw [flacBlock_length]; omega)
  have e2 := at8_of_drop h 2 (by rw [flacBlock_length]; omega)
  have e3 := at8_of_drop h 3 (by rw [flacBlock_length]; omega)
  rw [Nat.add_zero] at e0
  rw [e0, e1, e2, e3]
  have v0 : at8 (flacBlock f payload) 0 = f := rfl
  have v1 : at8 (flacBlock f payload) 1 = payload.length / 65536 := rfl
  have v2 : at8 (flacBlock f payload) 2 = payload.length / 256 % 256 := rfl
  have v3 : at8 (flacBlock f payload) 3 = payload.length % 256 := rfl
  rw [v0, v1, v2, v3]
  exact ⟨rfl, flac_len_roundtrip hlen⟩

theorem flac_drop_bound {bytes : List Nat} {pos f : Nat}
    {payload rest : List Nat}
    (h : bytes.drop pos = flacBlock f payload ++ rest) :
    pos + 4 + payload.length ≤ bytes.length := by
  have := congrArg List.length h
  rw [List.length_drop, List.length_append, flacBlock_length] at this
  omega

/-- One skipped (non-STREAMINFO, non-last) block advances the
`flac_duration` walk by the block's full length. -/
theorem flac_skip_step {bytes : List Nat} {pos t fuel : Nat}
    {payload rest : List Nat}
    (hdrop : bytes.drop pos = flacBlock t payload ++ rest)
    (ht1 : 1 ≤ t) (ht2 : t ≤ 127) (hlen : payload.length < 2 ^ 24) :
    flac_durationGo bytes (fuel + 1) pos =
      flac_durationGo bytes fuel (pos + (4 + payload.length)) := by
  obtain ⟨e0, elen⟩ := flac_header_reads hdrop hlen
  have hbound := flac_drop_bound hdrop
  rw [flac_durationGo]
  rw [if_neg (by omega)]
  dsimp only
  rw [e0, elen]
  have htype : ¬(t &&& 0x7F = 0) := by
    rw [land_7f, Nat.mod_eq_of_lt (show t < 128 by omega)]
    omega
  have hlast : t &&& 0x80 = 0 :=
    (land_80_eq_zero_iff (show t < 256 by omega)).mpr (by omega)
  rw [if_neg htype, if_neg (by simp [hlast])]
  have harith : pos + 4 + payload.length = pos + (4 + payload.length) := by
    omega
  rw [harith]

/-- Arrival at a type-0 STREAMINFO block: `flac_duration` returns exactly
what the claim's bit-field formulas prescribe. -/
theorem flac_streaminfo_step {bytes : List Nat} {pos f fuel : Nat}
    {info rest : List Nat}
    (hdrop : bytes.drop pos = flacBlock f info ++ rest)
    (hf : f = 0 ∨ f = 128) (hlen : info.length < 2 ^ 24)
    (hbytes : ∀ b ∈ info, b < 256) :
    flac_durationGo bytes (fuel + 1) pos =
      if info.length < 18 then .error .ioError
      else if specFlacSampleRate info = 0 then .error .ioError
      else .ok (specFlacTotalSamples info * 1000 / specFlacSampleRate info) := by
  obtain ⟨e0, elen⟩ := flac_header_reads hdrop hlen
  have hbound := flac_drop_bound hdrop
  have hdata : byteSlice bytes (pos + 4) (pos + 4 + info.length) = info := by
    have hd4 : bytes.drop (pos + 4) = info ++ rest := by
      have h2 : bytes.drop pos = flacBlockHeader f info.length ++ (info ++ rest) := by
        rw [hdrop]
        unfold flacBlock
        rw [List.append_assoc]
      have h3 := drop_of_drop_eq (flacBlockHeader f info.length) h2
      have h4 : (flacBlockHeader f info.length).length = 4 := by
        simp [flacBlockHeader]
      rwa [h4] at h3
    unfold byteSlice
    rw [hd4]
    have : pos + 4 + info.length - (pos + 4) = info.length := by omega
    rw [this, List.take_left]
  rw [flac_durationGo]
  rw [if_neg (by omega)]
  dsimp only
  rw [e0, elen]
  rw [if_pos (by rcases hf with hf | hf <;> rw [hf] <;> rfl)]
  rw [if_neg (by omega), hdata]
  have hsr : ((at8 info 10) <<< 12) ||| ((at8 info 11) <<< 4) |||
      (((at8 info 12) &&& 0xF0) >>> 4) = specFlacSampleRate info := by
    have b11 := at8_lt hbytes 11
    have b12 := at8_lt hbytes 12
    rw [byte_hi_nibble b12]
    have h1 : (at8 info 10) <<< 12 ||| (at8 info 11) <<< 4 =
        at8 info 10 * 4096 + at8 info 11 * 16 := by
      rw [Nat.shiftLeft_eq, Nat.shiftLeft_eq]
      exact lor_eq_add (k := 12) (by omega) (by omega)
    rw [h1, lor_eq_add (k := 4) (by omega) (by omega)]
    unfold specFlacSampleRate
    omega
  have hts : ((at8 info 12 &&& 0x0F) <<< 32) ||| ((at8 info 13) <<< 24) |||
      ((at8 info 14) <<< 16) ||| ((at8 info 15) <<< 8) ||| at8 info 16 =
      specFlacTotalSamples info := by
    have b13 := at8_lt hbytes 13
    have b14 := at8_lt hbytes 14
    have b15 := at8_lt hbytes 15
    have b16 := at8_lt hbytes 16
    rw [land_0f]
    have h1 : (at8 info 12 % 16) <<< 32 ||| (at8 info 13) <<< 24 =
        at8 info 12 % 16 * 4294967296 + at8 info 13 * 16777216 := by
      rw [Nat.shiftLeft_eq, Nat.shiftLeft_eq]
      exact lor_eq_add (k := 32) (by omega) (by omega)
    rw [h1]
    have h2 : at8 info 12 % 16 * 4294967296 + at8 info 13 * 16777216 |||
        (at8 info 14) <<< 16 =
        at8 info 12 % 16 * 4294967296 + at8 info 13 * 16777216 +
          at8 info 14 * 65536 := by
      rw [Nat.shiftLeft_eq]
      exact lor_eq_add (k := 24) (by omega) (by omega)
    rw [h2]
    have h3 : at8 info 12 % 16 * 4294967296 + at8 info 13 * 16777216 +
        at8 info 14 * 65536 ||| (at8 info 15) <<< 8 =
        at8 info 12 % 16 * 4294967296 + at8 info 13 * 16777216 +
          at8 info 14 * 65536 + at8 info 15 * 256 := by
      rw [Nat.shiftLeft_eq]
      exact lor_eq_add (k := 16) (by omega) (by omega)
    rw [h3, lor_eq_add (k := 8) (by omega) (by omega)]
    unfold specFlacTotalSamples
    omega
  rw [hsr, hts]

theorem flacJoin_cons (p : Nat × List Nat) (l : List (Nat × List Nat)) :
    flacJoin (p :: l) = flacBlock p.1 p.2 ++ flacJoin l := by
  simp [flacJoin]

theorem flacJoin_length_ge (l : List (Nat × List Nat)) :
    l.length ≤ (flacJoin l).length := by
  induction l with
  | nil => simp [flacJoin]
  | cons p l ih =>
    rw [flacJoin_cons, List.length_append, flacBlock_length]
    simp only [List.length_cons]
    omega

theorem flac_walk_to_streaminfo (bytes : List Nat) :
    ∀ pre : List (Nat × List Nat), ∀ fuel pos : Nat,
      ∀ f : Nat, ∀ info tail : List Nat,
      pre.length + 1 ≤ fuel →
      bytes.drop pos = flacJoin pre ++ (flacBlock f info ++ tail) →
      (∀ p ∈ pre, 1 ≤ p.1 ∧ p.1 ≤ 127 ∧ p.2.length < 2 ^ 24) →
      (f = 0 ∨ f = 128) → info.length < 2 ^ 24 → (∀ b ∈ info, b < 256) →
      flac_durationGo bytes fuel pos =
        if info.length < 18 then .error .ioError
        else if specFlacSampleRate info = 0 then .error .ioError
        else .ok (specFlacTotalSamples info * 1000 / specFlacSampleRate info) := by
  intro pre
  induction pre with
  | nil =>
    intro fuel pos f info tail hfuel hdrop hpre hf hlen hbytes
    obtain ⟨fuel', rfl⟩ : ∃ k, fuel = k + 1 :=
      ⟨fuel - 1, by simp at hfuel; omega⟩
    rw [flacJoin] at hdrop
    simp only [List.map_nil, List.flatten_nil, List.nil_append] at hdrop
    exact flac_streaminfo_step hdrop hf hlen hbytes
  | cons p pre ih =>
    intro fuel pos f info tail hfuel hdrop hpre hf hlen hbytes
    obtain ⟨fuel', rfl⟩ : ∃ k, fuel = k + 1 :=
      ⟨fuel - 1, by simp at hfuel; omega⟩
    rw [flacJoin_cons, List.append_assoc] at hdrop
    obtain ⟨hp1, hp2, hp3⟩ := hpre p (by simp)
    rw [flac_skip_step hdrop hp1 hp2 hp3]
    have hdrop2 : bytes.drop (pos + (4 + p.2.length)) =
        flacJoin pre ++ (flacBlock f info ++ tail) := by
      have := drop_of_drop_eq (flacBlock p.1 p.2) hdrop
      rwa [flacBlock_length] at this
    refine ih fuel' (pos + (4 + p.2.length)) f info tail ?_ hdrop2
      (fun q hq => hpre q (by simp [hq])) hf hlen hbytes
    simp only [List.length_cons] at hfuel
    omega

theorem flac_walk_to_eof (bytes : List Nat) :
    ∀ pre : List (Nat × List Nat), ∀ fuel pos : Nat,
      pre.length + 1 ≤ fuel →
      bytes.drop pos = flacJoin pre →
      (∀ p ∈ pre, 1 ≤ p.1 ∧ p.1 ≤ 127 ∧ p.2.length < 2 ^ 24) →
      flac_durationGo bytes fuel pos = .error .ioError := by
  intro pre
  induction pre with
  | nil =>
    intro fuel pos hfuel hdrop hpre
    obtain ⟨fuel', rfl⟩ : ∃ k, fuel = k + 1 :=
      ⟨fuel - 1, by simp at hfuel; omega⟩
    rw [flac_durationGo]
    rw [if_pos ?hshort]
    case hshort =>
      have := congrArg List.length hdrop
      rw [List.length_drop] at this
      simp [flacJoin] at this
      omega
  | cons p pre ih =>
    intro fuel pos hfuel hdrop hpre
    obtain ⟨fuel', rfl⟩ : ∃ k, fuel = k + 1 :=
      ⟨fuel - 1, by simp at hfuel; omega⟩
    rw [flacJoin_cons] at hdrop
    obtain ⟨hp1, hp2, hp3⟩ := hpre p (by simp)
    rw [flac_skip_step hdrop hp1 hp2 hp3]
    have hdrop2 : bytes.drop (pos + (4 + p.2.length)) = flacJoin pre := by
      have := drop_of_drop_eq (flacBlock p.1 p.2) hdrop
      rwa [flacBlock_length] at this
    refine ih fuel' (pos + (4 + p.2.length)) ?_ hdrop2
      (fun q hq => hpre q (by simp [hq]))
    simp only [List.length_cons] at hfuel
    omega

/-- C6: for a FLAC stream whose metadata-block walk reaches a type-0
STREAMINFO block (after any run of non-last skippable blocks),
`flac_duration` yields `total_samples * 1000 / sample_rate` with the fields
packed exactly as the claim states, failing precisely when the block is
shorter than 18 bytes or the sample rate is zero; it also fails when the
stream ends without a STREAMINFO block. -/
theorem c6_flac_duration :
    (∀ pre f0 info tail,
      (∀ p ∈ pre, 1 ≤ p.1 ∧ p.1 ≤ 127 ∧ p.2.length < 2 ^ 24) →
      (f0 = 0 ∨ f0 = 128) → info.length < 2 ^ 24 → (∀ b ∈ info, b < 256) →
      flac_duration (bfLaC ++ flacJoin pre ++ (flacBlock f0 info ++ tail)) =
        if info.length < 18 then .error .ioError
        else if specFlacSampleRate info = 0 then .error .ioError
        else .ok (specFlacTotalSamples info * 1000 / specFlacSampleRate info)) ∧
    (∀ pre,
      (∀ p ∈ pre, 1 ≤ p.1 ∧ p.1 ≤ 127 ∧ p.2.length < 2 ^ 24) →
      flac_duration (bfLaC ++ flacJoin pre) = .error .ioError) := by
  constructor
  · intro pre f0 info tail hpre hf hlen hbytes
    unfold flac_duration
    have hdrop : (bfLaC ++ flacJoin pre ++ (flacBlock f0 info ++ tail)).drop 4 =
        flacJoin pre ++ (flacBlock f0 info ++ tail) := by
      rw [List.append_assoc]
      exact List.drop_left bfLaC _
    refine flac_walk_to_streaminfo _ pre _ 4 f0 info tail ?_ hdrop hpre hf
      hlen hbytes
    have h1 := flacJoin_length_ge pre
    simp [List.length_append, flacBlock_length]
    omega
  · intro pre hpre
    unfold flac_duration
    have hdrop : (bfLaC ++ flacJoin pre).drop 4 = flacJoin pre :=
      List.drop_left bfLaC _
    refine flac_walk_to_eof _ pre _ 4 ?_ hdrop hpre
    have h1 := flacJoin_length_ge pre
    simp [List.length_append]
    omega

/-- Witness for C6: the concrete FLAC file with sample rate 44100 and 44100
total samples yields 1000 ms. -/
theorem c6_flac_duration_witness : flac_duration flacGoodFile = .ok 1000 := by
  have h := c6_flac_duration.1 [] 128
    [0, 0, 0, 0, 0, 0, 0, 0, 0, 0, 0x0A, 0xC4, 0x40, 0x00, 0x00, 0xAC, 0x44,
      0x00] []
    (by simp) (.inr rfl) (by decide) (by decide)
  exact (by decide : flacGoodFile =
    bfLaC ++ flacJoin [] ++
      (flacBlock 128
        [0, 0, 0, 0, 0, 0, 0, 0, 0, 0, 0x0A, 0xC4, 0x40, 0x00, 0x00, 0xAC,
          0x44, 0x00] ++ [])) ▸ (h.trans (by decide))

/-! ## C7: `wav_duration` -/

theorem wavChunk_length (id p : List Nat) (hid : id.length = 4) :
    (wavChunk id p).length = 8 + p.length := by
  simp [wavChunk, leBytes4, hid]
  omega

theorem le32_roundtrip {n : Nat} (h : n < 2 ^ 32) :
    n % 256 + n / 256 % 256 * 256 + n / 65536 % 256 * 65536 +
      n / 16777216 % 256 * 16777216 = n := by
  omega

theorem byteSlice_of_drop {bytes pre rest : List Nat} {pos : Nat}
    (h : bytes.drop pos = pre ++ rest) :
    byteSlice bytes pos (pos + pre.length) = pre := by
  unfold byteSlice
  rw [h]
  have : pos + pre.length - pos = pre.length := by omega
  rw [this, List.take_left]

/-- The chunk header reads of the `wav_duration` walk on a well-formed
chunk. -/
theorem wav_chunk_header_reads {bytes : List Nat} {pos : Nat}
    {id payload rest : List Nat} (hid : id.length = 4)
    (h : bytes.drop pos = wavChunk id payload ++ rest)
    (hlen : payload.length < 2 ^ 32) :
    byteSlice bytes pos (pos + 4) = id ∧
    leU32at bytes (pos + 4) = payload.length ∧
    bytes.drop (pos + 8) = payload ++ rest ∧
    pos + 8 + payload.length ≤ bytes.length := by
  have hsplit : bytes.drop pos = id ++ (leBytes4 payload.length ++ (payload ++ rest)) := by
    rw [h]
    unfold wavChunk
    simp [List.append_assoc]
  have hslice : byteSlice bytes pos (pos + 4) = id := by
    have := byteSlice_of_drop hsplit
    rwa [hid] at this
  have hck : (wavChunk id payload).length = 8 + payload.length :=
    wavChunk_length id payload hid
  have hsplit8 : bytes.drop pos =
      (id ++ leBytes4 payload.length) ++ (payload ++ rest) := by
    rw [List.append_assoc]
    exact hsplit
  have hlen8 : (id ++ leBytes4 payload.length).length = 8 := by
    simp only [List.length_append, leBytes4, List.length_cons, List.length_nil,
      hid]
  refine ⟨hslice, ?_, ?_, ?_⟩
  · have e4 := at8_of_drop hsplit8 4 (by omega)
    have e5 := at8_of_drop hsplit8 5 (by omega)
    have e6 := at8_of_drop hsplit8 6 (by omega)
    have e7 := at8_of_drop hsplit8 7 (by omega)
    have v4 : at8 (id ++ leBytes4 payload.length) 4 =
        payload.length % 256 := by
      rw [at8_append_right _ (by omega), hid]
      rfl
    have v5 : at8 (id ++ leBytes4 payload.length) 5 =
        payload.length / 256 % 256 := by
      rw [at8_append_right _ (by omega), hid]
      rfl
    have v6 : at8 (id ++ leBytes4 payload.length) 6 =
        payload.length / 65536 % 256 := by
      rw [at8_append_right _ (by omega), hid]
      rfl
    have v7 : at8 (id ++ leBytes4 payload.length) 7 =
        payload.length / 16777216 % 256 := by
      rw [at8_append_right _ (by omega), hid]
      rfl
    unfold leU32at
    rw [show pos + 4 + 1 = pos + 5 by omega, show pos + 4 + 2 = pos + 6 by omega,
      show pos + 4 + 3 = pos + 7 by omega, e4, e5, e6, e7, v4, v5, v6, v7]
    exact le32_roundtrip hlen
  · have h8 : bytes.drop pos = (id ++ leBytes4 payload.length) ++ (payload ++ rest) := by
      rw [hsplit, List.append_assoc]
    have := drop_of_drop_eq (id ++ leBytes4 payload.length) h8
    rwa [show (id ++ leBytes4 payload.length).length = 8 by
      simp [leBytes4, hid]] at this
  · have := congrArg List.length h
    rw [List.length_drop, List.length_append, hck] at this
    omega

/-- A chunk that is neither `fmt ` nor `data` is skipped by its declared
size. -/
theorem wav_skip_step {bytes : List Nat} {pos fuel : Nat}
    {id payload rest : List Nat} {ff : Bool} {br ds : Nat}
    (hid : id.length = 4) (hnf : id ≠ bfmt) (hnd : id ≠ bdata)
    (h : bytes.drop pos = wavChunk id payload ++ rest)
    (hlen : payload.length < 2 ^ 32) :
    wav_durationGo bytes (fuel + 1) pos ff br ds =
      wav_durationGo bytes fuel (pos + 8 + payload.length) ff br ds := by
  obtain ⟨hslice, hsize, hdroppl, hbound⟩ := wav_chunk_header_reads hid h hlen
  rw [wav_durationGo]
  rw [if_neg (by omega)]
  dsimp only
  rw [hslice, hsize]
  rw [if_neg hnf, if_neg hnd]

/-- Arrival at a `fmt ` chunk with at least 12 payload bytes records the byte
rate. -/
theorem wav_fmt_step {bytes : List Nat} {pos fuel : Nat}
    {payload rest : List Nat} {ff : Bool} {br ds : Nat}
    (h : bytes.drop pos = wavChunk bfmt payload ++ rest)
    (h12 : 12 ≤ payload.length) (hlen : payload.length < 2 ^ 32) :
    wav_durationGo bytes (fuel + 1) pos ff br ds =
      wav_durationGo bytes fuel (pos + 8 + payload.length) true
        (leU32at payload 8) ds := by
  obtain ⟨hslice, hsize, hdroppl, hbound⟩ :=
    wav_chunk_header_reads (by decide) h hlen
  have hfmt : byteSlice bytes (pos + 8) (pos + 8 + payload.length) = payload :=
    byteSlice_of_drop hdroppl
  rw [wav_durationGo]
  rw [if_neg (by omega)]
  dsimp only
  rw [hslice, hsize]
  rw [if_pos rfl, if_neg (by omega), hfmt]
  rw [if_pos h12]

theorem wav_eof_any_fuel {bytes : List Nat} {pos : Nat} {ff : Bool}
    {br ds : Nat} (h : bytes.length < pos + 8) :
    ∀ fuel, wav_durationGo bytes fuel pos ff br ds = wavDurFinish ff br ds := by
  intro fuel
  cases fuel with
  | zero => rfl
  | succ fuel =>
    rw [wav_durationGo]
    rw [if_pos (by omega)]

/-- A trailing `data` chunk header at end-of-file records the declared size
and ends the walk. -/
theorem wav_data_final {bytes : List Nat} {pos fuel : Nat} {ff : Bool}
    {br ds S : Nat} (h : bytes.drop pos = bdata ++ leBytes4 S)
    (hS : S < 2 ^ 32) :
    wav_durationGo bytes (fuel + 1) pos ff br ds = wavDurFinish ff br S := by
  have hlen8 : bytes.length - pos = 8 := by
    have := congrArg List.length h
    rw [List.length_drop] at this
    simpa [leBytes4] using this
  have hslice : byteSlice bytes pos (pos + 4) = bdata := by
    have h2 := byteSlice_of_drop h
    simpa using h2
  have hsize : leU32at bytes (pos + 4) = S := by
    have h2 : bytes.drop pos = (bdata ++ leBytes4 S) ++ [] := by
      rw [List.append_nil]
      exact h
    have hl8 : (bdata ++ leBytes4 S).length = 8 := by
      simp [bdata, leBytes4]
    have e4 := at8_of_drop h2 4 (by omega)
    have e5 := at8_of_drop h2 5 (by omega)
    have e6 := at8_of_drop h2 6 (by omega)
    have e7 := at8_of_drop h2 7 (by omega)
    have v4 : at8 (bdata ++ leBytes4 S) 4 = S % 256 := rfl
    have v5 : at8 (bdata ++ leBytes4 S) 5 = S / 256 % 256 := rfl
    have v6 : at8 (bdata ++ leBytes4 S) 6 = S / 65536 % 256 := rfl
    have v7 : at8 (bdata ++ leBytes4 S) 7 = S / 16777216 % 256 := rfl
    unfold leU32at
    rw [show pos + 4 + 1 = pos + 5 by omega, show pos + 4 + 2 = pos + 6 by omega,
      show pos + 4 + 3 = pos + 7 by omega, e4, e5, e6, e7, v4, v5, v6, v7]
    exact le32_roundtrip hS
  rw [wav_durationGo]
  rw [if_neg (by omega)]
  dsimp only
  rw [hslice, hsize]
  rw [if_neg (by decide), if_pos rfl]
  exact wav_eof_any_fuel (by omega) fuel

theorem wavJoin_cons (p : List Nat × List Nat)
    (l : List (List Nat × List Nat)) :
    wavJoin (p :: l) = wavChunk p.1 p.2 ++ wavJoin l := by
  simp [wavJoin]

theorem wavJoin_length_ge (l : List (List Nat × List Nat))
    (h : ∀ p ∈ l, IsOtherChunk p) : l.length ≤ (wavJoin l).length := by
  induction l with
  | nil => simp [wavJoin]
  | cons p l ih =>
    rw [wavJoin_cons, List.length_append,
      wavChunk_length p.1 p.2 (h p (by simp)).1]
    have := ih fun q hq => h q (by simp [hq])
    simp only [List.length_cons]
    omega

/-- Skipping a run of non-`fmt `, non-`data` chunks leaves the walk state
unchanged. -/
theorem wav_skip_walk (bytes : List Nat) :
    ∀ pre : List (List Nat × List Nat), ∀ fuel pos : Nat, ∀ ff : Bool,
      ∀ br ds : Nat, ∀ rest : List Nat,
      pre.length ≤ fuel →
      bytes.drop pos = wavJoin pre ++ rest →
      (∀ p ∈ pre, IsOtherChunk p) →
      wav_durationGo bytes fuel pos ff br ds =
        wav_durationGo bytes (fuel - pre.length)
          (pos + (wavJoin pre).length) ff br ds := by
  intro pre
  induction pre with
  | nil =>
    intro fuel pos ff br ds rest hfuel hdrop hpre
    simp [wavJoin]
  | cons p pre ih =>
    intro fuel pos ff br ds rest hfuel hdrop hpre
    obtain ⟨fuel', rfl⟩ : ∃ k, fuel = k + 1 :=
      ⟨fuel - 1, by simp at hfuel; omega⟩
    rw [wavJoin_cons, List.append_assoc] at hdrop
    obtain ⟨hp1, hp2, hp3, hp4⟩ := hpre p (by simp)
    rw [wav_skip_step hp1 hp2 hp3 hdrop hp4]
    have hdrop2 : bytes.drop (pos + 8 + p.2.length) = wavJoin pre ++ rest := by
      have := drop_of_drop_eq (wavChunk p.1 p.2) hdrop
      rw [wavChunk_length p.1 p.2 hp1] at this
      rwa [show pos + (8 + p.2.length) = pos + 8 + p.2.length by omega] at this
    have hrec := ih fuel' (pos + 8 + p.2.length) ff br ds rest
      (by simp only [List.length_cons] at hfuel; omega) hdrop2
      (fun q hq => hpre q (by simp [hq]))
    rw [hrec]
    rw [wavJoin_cons, List.length_append, wavChunk_length p.1 p.2 hp1]
    have : fuel' - pre.length = fuel' + 1 - (p :: pre).length := by
      simp only [List.length_cons]
      omega
    rw [← this]
    have : pos + 8 + p.2.length + (wavJoin pre).length =
        pos + (8 + p.2.length + (wavJoin pre).length) := by omega
    rw [this]

/-- C7 (amended): `wav_duration` computes `data_size * 1000 / byte_rate` for
a WAV file whose chunk sequence is: any run of non-`fmt `/non-`data` chunks,
one `fmt ` chunk with at least 12 payload bytes, another such run, and a
final `data` chunk header at end-of-file with no stored payload; it fails
exactly when the byte rate is zero.  (The scanner does not skip a `data`
chunk's payload, so stored payload bytes are themselves scanned as chunks
and can disturb the result — see the counterexample.)  It also fails when no
`fmt ` chunk is present. -/
theorem c7_amended :
    (∀ s4 pre mid fmtPayload S,
      s4.length = 4 →
      (∀ p ∈ pre, IsOtherChunk p) → (∀ p ∈ mid, IsOtherChunk p) →
      12 ≤ fmtPayload.length → fmtPayload.length < 2 ^ 32 → S < 2 ^ 32 →
      wav_duration (bRIFF ++ s4 ++ bWAVE ++ wavJoin pre ++
          wavChunk bfmt fmtPayload ++ wavJoin mid ++ (bdata ++ leBytes4 S)) =
        (if leU32at fmtPayload 8 > 0 then
          .ok (S * 1000 / leU32at fmtPayload 8)
        else .error .ioError)) ∧
    (∀ s4 pre S,
      s4.length = 4 → (∀ p ∈ pre, IsOtherChunk p) → S < 2 ^ 32 →
      wav_duration (bRIFF ++ s4 ++ bWAVE ++ wavJoin pre ++
          (bdata ++ leBytes4 S)) = .error .ioError) := by
  constructor
  · intro s4 pre mid fmtPayload S hs4 hpre hmid h12 hflen hS
    set bytes := bRIFF ++ s4 ++ bWAVE ++ wavJoin pre ++
      wavChunk bfmt fmtPayload ++ wavJoin mid ++ (bdata ++ leBytes4 S) with hbytes
    have hlen : bytes.length = 12 + (wavJoin pre).length +
        (8 + fmtPayload.length) + (wavJoin mid).length + 8 := by
      rw [hbytes]
      simp [List.length_append, wavChunk_length bfmt fmtPayload (by decide), hs4,
        bRIFF, bWAVE, bdata, leBytes4]
      omega
    have hdrop12 : bytes.drop 12 = wavJoin pre ++ (wavChunk bfmt fmtPayload ++
        (wavJoin mid ++ (bdata ++ leBytes4 S))) := by
      rw [hbytes]
      have : bRIFF ++ s4 ++ bWAVE ++ wavJoin pre ++ wavChunk bfmt fmtPayload ++
          wavJoin mid ++ (bdata ++ leBytes4 S) =
          (bRIFF ++ s4 ++ bWAVE) ++ (wavJoin pre ++ (wavChunk bfmt fmtPayload ++
            (wavJoin mid ++ (bdata ++ leBytes4 S)))) := by
        simp [List.append_assoc]
      rw [this]
      have h12len : (bRIFF ++ s4 ++ bWAVE).length = 12 := by
        simp [bRIFF, bWAVE, hs4]
      rw [← h12len, List.drop_left]
    have hprelen := wavJoin_length_ge pre hpre
    have hmidlen := wavJoin_length_ge mid hmid
    unfold wav_duration
    rw [wav_skip_walk bytes pre (bytes.length + 1) 12 false 0 0 _
      (by omega) hdrop12 hpre]
    have hdropf : bytes.drop (12 + (wavJoin pre).length) =
        wavChunk bfmt fmtPayload ++ (wavJoin mid ++ (bdata ++ leBytes4 S)) :=
      drop_of_drop_eq _ hdrop12
    obtain ⟨fuel1, hfuel1⟩ : ∃ k, bytes.length + 1 - pre.length = k + 1 :=
      ⟨bytes.length - pre.length, by omega⟩
    rw [hfuel1]
    rw [wav_fmt_step hdropf h12 hflen]
    have hdropm : bytes.drop (12 + (wavJoin pre).length + 8 + fmtPayload.length) =
        wavJoin mid ++ (bdata ++ leBytes4 S) := by
      have := drop_of_drop_eq (wavChunk bfmt fmtPayload) hdropf
      rw [wavChunk_length bfmt fmtPayload (by decide)] at this
      rwa [show 12 + (wavJoin pre).length + (8 + fmtPayload.length) =
        12 + (wavJoin pre).length + 8 + fmtPayload.length by omega] at this
    rw [wav_skip_walk bytes mid fuel1
      (12 + (wavJoin pre).length + 8 + fmtPayload.length) true
      (leU32at fmtPayload 8) 0 _ (by omega) hdropm hmid]
    have hdropd : bytes.drop (12 + (wavJoin pre).length + 8 + fmtPayload.length +
        (wavJoin mid).length) = bdata ++ leBytes4 S :=
      drop_of_drop_eq _ hdropm
    obtain ⟨fuel2, hfuel2⟩ : ∃ k, fuel1 - mid.length = k + 1 :=
      ⟨fuel1 - mid.length - 1, by omega⟩
    rw [hfuel2]
    rw [wav_data_final hdropd hS]
    unfold wavDurFinish
    split
    next hc => rw [if_pos hc.2]
    next hc =>
      rw [if_neg ?hbr]
      case hbr =>
        intro hgt
        exact hc ⟨rfl, hgt⟩
  · intro s4 pre S hs4 hpre hS
    set bytes := bRIFF ++ s4 ++ bWAVE ++ wavJoin pre ++
      (bdata ++ leBytes4 S) with hbytes
    have hlen : bytes.length = 12 + (wavJoin pre).length + 8 := by
      rw [hbytes]
      simp [List.length_append, hs4, bRIFF, bWAVE, bdata, leBytes4]
      omega
    have hdrop12 : bytes.drop 12 = wavJoin pre ++ (bdata ++ leBytes4 S) := by
      rw [hbytes]
      have : bRIFF ++ s4 ++ bWAVE ++ wavJoin pre ++ (bdata ++ leBytes4 S) =
          (bRIFF ++ s4 ++ bWAVE) ++ (wavJoin pre ++ (bdata ++ leBytes4 S)) := by
        simp [List.append_assoc]
      rw [this]
      have h12len : (bRIFF ++ s4 ++ bWAVE).length = 12 := by
        simp [bRIFF, bWAVE, hs4]
      rw [← h12len, List.drop_left]
    have hprelen := wavJoin_length_ge pre hpre
    unfold wav_duration
    rw [wav_skip_walk bytes pre (bytes.length + 1) 12 false 0 0 _
      (by omega) hdrop12 hpre]
    have hdropd : bytes.drop (12 + (wavJoin pre).length) =
        bdata ++ leBytes4 S := drop_of_drop_eq _ hdrop12
    obtain ⟨fuel2, hfuel2⟩ : ∃ k, bytes.length + 1 - pre.length = k + 1 :=
      ⟨bytes.length - pre.length, by omega⟩
    rw [hfuel2]
    rw [wav_data_final hdropd hS]
    rfl

/-- Witness for C7 (amended): byte rate 176400 with declared data size 176400
yields 1000 ms on the concrete file. -/
theorem c7_amended_witness : wav_duration wavGoodFile = .ok 1000 := by
  have h := c7_amended.1 [0, 0, 0, 0] [] []
    [0, 0, 0, 0, 0, 0, 0, 0, 0x10, 0xB1, 0x02, 0x00, 0, 0, 0, 0] 176400
    (by decide) (by simp) (by simp) (by decide) (by decide) (by decide)
  exact (by decide : wavGoodFile = bRIFF ++ [0, 0, 0, 0] ++ bWAVE ++
    wavJoin [] ++ wavChunk bfmt
      [0, 0, 0, 0, 0, 0, 0, 0, 0x10, 0xB1, 0x02, 0x00, 0, 0, 0, 0] ++
    wavJoin [] ++ (bdata ++ leBytes4 176400)) ▸ (h.trans (by decide))

/-- C7 counterexample: a WAV file containing a valid `fmt ` chunk (byte rate
176400) and a `data` chunk (declared size 20) for which `wav_duration`
nevertheless fails: the scanner walks into the stored `data` payload, reads a
pseudo-`fmt ` chunk there, and overwrites the byte rate with 0. -/
theorem c7_counterexample :
    wav_duration wavDataPayloadFile = .error .ioError := by decide

/-! ## C8: the MPEG frame scanner on consecutive CBR frames -/

/-- The frame scanner consumes one valid MPEG1 Layer III 128 kbps / 44100 Hz
frame by advancing the cursor by the full frame length and accumulating 1152
samples. -/
theorem mp3_frame_step {all : List Nat} {pos fuel ts sr : Nat}
    {l rest : List Nat} (hl : IsCBRFrame l)
    (hdrop : all.drop pos = l ++ rest) :
    mp3Go all (fuel + 1) pos ts sr =
      mp3Go all fuel (pos + l.length) (ts + 1152) 44100 := by
  obtain ⟨v, c, d, body, hv, hc, rfl, hblen⟩ := hl
  have hv1 : v &&& 224 = 224 := by rcases hv with rfl | rfl <;> decide
  have hv2 : v >>> 3 &&& 3 = 3 := by rcases hv with rfl | rfl <;> decide
  have hv3 : v >>> 1 &&& 3 = 1 := by rcases hv with rfl | rfl <;> decide
  have hc1 : c >>> 2 &&& 3 = 0 := by
    rcases hc with rfl | rfl | rfl | rfl <;> decide
  have hc2 : c >>> 4 &&& 15 = 9 := by
    rcases hc with rfl | rfl | rfl | rfl <;> decide
  have hLlen : (0xFF :: v :: c :: d :: body).length =
      417 + (c >>> 1 &&& 1) := by
    simp only [List.length_cons, hblen]
    omega
  have hlen : 417 + (c >>> 1 &&& 1) ≤ all.length - pos := by
    have := congrArg List.length hdrop
    rw [List.length_drop, List.length_append, hLlen] at this
    omega
  have e0 : at8 all (pos + 0) = 0xFF :=
    (at8_of_drop hdrop 0 (by simp)).trans rfl
  have e1 : at8 all (pos + 1) = v :=
    (at8_of_drop hdrop 1 (by simp)).trans rfl
  have e2 : at8 all (pos + 2) = c :=
    (at8_of_drop hdrop 2 (by simp)).trans rfl
  rw [Nat.add_zero] at e0
  rw [mp3Go]
  rw [if_neg (by omega)]
  dsimp only
  rw [e0, e1, e2]
  simp only [hv1, hv2, hv3, hc1, hc2,
    show bitrate_table_mpeg1_layer3.getD 9 0 = 128 from by decide,
    show (144000 * 128 / 44100 : Nat) = 417 from by decide,
    reduceIte]
  simp only [show ((3 : Nat) = 0) = False from by simp,
    show ((3 : Nat) = 2) = False from by simp,
    and_true, true_and, ne_eq, not_true_eq_false, if_false, if_true,
    eq_self_iff_true, Bool.false_eq_true, ite_true, ite_false]
  rw [show bitrate_table_mpeg1_layer3.getD 9 0 = 128 from by decide]
  rw [if_neg (by decide)]
  rw [show (144000 * 128 / 44100 : Nat) = 417 from by decide]
  rw [if_neg (by omega)]
  rw [if_neg (by omega)]
  rw [hLlen]

/-- A frame header whose computed frame length would extend past end-of-file
stops the scan without counting the partial frame. -/
theorem mp3_partial_final {all : List Nat} {pos fuel ts sr : Nat}
    {v c d : Nat} {shortbody : List Nat}
    (hv : v = 0xFA ∨ v = 0xFB) (hc : c = 0x90 ∨ c = 0x91 ∨ c = 0x92 ∨ c = 0x93)
    (hshort : shortbody.length < 413 + (c >>> 1 &&& 1))
    (hdrop : all.drop pos = 0xFF :: v :: c :: d :: shortbody) :
    mp3Go all (fuel + 1) pos ts sr = (ts, sr) := by
  have hv1 : v &&& 224 = 224 := by rcases hv with rfl | rfl <;> decide
  have hv2 : v >>> 3 &&& 3 = 3 := by rcases hv with rfl | rfl <;> decide
  have hv3 : v >>> 1 &&& 3 = 1 := by rcases hv with rfl | rfl <;> decide
  have hc1 : c >>> 2 &&& 3 = 0 := by
    rcases hc with rfl | rfl | rfl | rfl <;> decide
  have hc2 : c >>> 4 &&& 15 = 9 := by
    rcases hc with rfl | rfl | rfl | rfl <;> decide
  have hlen : all.length - pos = 4 + shortbody.length := by
    have h2 := congrArg List.length hdrop
    rw [List.length_drop] at h2
    simp only [List.length_cons] at h2
    omega
  have hdrop' : all.drop pos = (0xFF :: v :: c :: d :: shortbody) ++ [] := by
    rw [List.append_nil]
    exact hdrop
  have e0 : at8 all (pos + 0) = 0xFF :=
    (at8_of_drop hdrop' 0 (by simp)).trans rfl
  have e1 : at8 all (pos + 1) = v :=
    (at8_of_drop hdrop' 1 (by simp)).trans rfl
  have e2 : at8 all (pos + 2) = c :=
    (at8_of_drop hdrop' 2 (by simp)).trans rfl
  rw [Nat.add_zero] at e0
  rw [mp3Go]
  rw [if_neg (by omega)]
  dsimp only
  rw [e0, e1, e2]
  simp only [hv1, hv2, hv3, hc1, hc2,
    show bitrate_table_mpeg1_layer3.getD 9 0 = 128 from by decide,
    show (144000 * 128 / 44100 : Nat) = 417 from by decide,
    reduceIte]
  simp only [show ((3 : Nat) = 0) = False from by simp,
    show ((3 : Nat) = 2) = False from by simp,
    and_true, true_and, ne_eq, not_true_eq_false, if_false, if_true,
    eq_self_iff_true, Bool.false_eq_true, ite_true, ite_false]
  rw [show bitrate_table_mpeg1_layer3.getD 9 0 = 128 from by decide]
  rw [if_neg (by decide)]
  rw [show (144000 * 128 / 44100 : Nat) = 417 from by decide]
  rw [if_neg (by omega)]
  rw [if_pos (by omega)]

theorem mp3_end_any_fuel {all : List Nat} {pos ts sr : Nat}
    (h : all.length < pos + 4) :
    ∀ fuel, mp3Go all fuel pos ts sr = (ts, sr) := by
  intro fuel
  cases fuel with
  | zero => rfl
  | succ fuel =>
    rw [mp3Go]
    rw [if_pos (by omega)]

/-- Scanning a run of consecutive CBR frames accumulates `1152` samples per
frame. -/
theorem mp3_frames_walk (all : List Nat) :
    ∀ frames : List (List Nat), ∀ fuel pos ts sr : Nat,
      frames.length ≤ fuel →
      all.drop pos = frames.flatten ++ (all.drop (pos + frames.flatten.length)) →
      (∀ l ∈ frames, IsCBRFrame l) →
      mp3Go all fuel pos ts sr =
        mp3Go all (fuel - frames.length) (pos + frames.flatten.length)
          (ts + 1152 * frames.length) (if frames.isEmpty then sr else 44100) := by
  intro frames
  induction frames with
  | nil =>
    intro fuel pos ts sr hfuel hdrop hfr
    simp
  | cons l fr ih =>
    intro fuel pos ts sr hfuel hdrop hfr
    obtain ⟨k, rfl⟩ : ∃ k, fuel = k + 1 :=
      ⟨fuel - 1, by simp at hfuel; omega⟩
    rw [List.flatten_cons, List.append_assoc] at hdrop
    rw [mp3_frame_step (hfr l (by simp)) hdrop]
    have hdrop2 : all.drop (pos + l.length) =
        fr.flatten ++ all.drop (pos + l.length + fr.flatten.length) := by
      have h2 := drop_of_drop_eq l hdrop
      rwa [List.length_append, ← Nat.add_assoc] at h2
    rw [ih k (pos + l.length) (ts + 1152) 44100 (by simp at hfuel; omega)
      hdrop2 (fun q hq => hfr q (by simp [hq]))]
    simp only [List.isEmpty_cons, ite_self, Bool.false_eq_true, if_false,
      List.flatten_cons, List.length_append, List.length_cons]
    rw [show k + 1 - (fr.length + 1) = k - fr.length from by omega,
      show pos + (l.length + fr.flatten.length) =
        pos + l.length + fr.flatten.length from by omega,
      show ts + 1152 * (fr.length + 1) = ts + 1152 + 1152 * fr.length from
        by ring]

theorem cbr_flatten_len_ge (frames : List (List Nat))
    (h : ∀ l ∈ frames, IsCBRFrame l) :
    417 * frames.length ≤ frames.flatten.length := by
  induction frames with
  | nil => simp
  | cons l fr ih =>
    obtain ⟨v, c, d, body, hv, hc, rfl, hblen⟩ := h l (by simp)
    have h2 := ih (fun q hq => h q (by simp [hq]))
    simp only [List.flatten_cons, List.length_append, List.length_cons,
      List.length_cons]
    omega

theorem mp3StartPos_head_ff (tl : List Nat) : mp3StartPos (0xFF :: tl) = 0 := by
  unfold mp3StartPos
  rw [if_neg]
  rintro ⟨-, hsl⟩
  have he : byteSlice (0xFF :: tl) 0 3 = 0xFF :: tl.take 2 := rfl
  rw [he] at hsl
  rw [show bID3 = [0x49, 0x44, 0x33] from rfl] at hsl
  injection hsl with h1 h2
  exact absurd h1 (by decide)

/-- Whenever the buffer opens with a run of CBR frames, the start position is
`0`, the scanner counts `1152` samples per frame, and whatever follows the run
stops the scan, so the duration comes out at
`1152 * N * 1000 / 44100` milliseconds. -/
theorem mp3_duration_of_run {bytes : List Nat} {frames : List (List Nat)}
    (hne : frames ≠ []) (hfr : ∀ l ∈ frames, IsCBRFrame l)
    (hN : 1152 * frames.length * 1000 / 44100 ≤ 2 ^ 64 - 1)
    (hb : bytes = frames.flatten ++ bytes.drop frames.flatten.length)
    (hstart : mp3StartPos bytes = 0)
    (hend : ∀ fuel ts sr, mp3Go bytes fuel frames.flatten.length ts sr =
      (ts, sr)) :
    mp3_duration bytes = .ok (1152 * frames.length * 1000 / 44100) := by
  have h417 := cbr_flatten_len_ge frames hfr
  have hlenb : frames.flatten.length ≤ bytes.length := by
    conv_rhs => rw [hb]
    rw [List.length_append]
    omega
  have hNpos : 0 < frames.length := List.length_pos.mpr hne
  have hemp : frames.isEmpty = false := by
    cases frames with
    | nil => exact absurd rfl hne
    | cons a l => rfl
  have hwalk := mp3_frames_walk bytes frames (2 * bytes.length) 0 0 0
    (by omega) (by rw [List.drop_zero, Nat.zero_add]; exact hb) hfr
  simp only [hemp, Bool.false_eq_true, if_false, Nat.zero_add] at hwalk
  rw [hend] at hwalk
  unfold mp3_duration
  dsimp only
  rw [hstart, hwalk]
  dsimp only
  rw [if_pos ⟨by omega, by omega⟩]
  rw [if_neg (by omega)]

/-- **C8**: `mp3_duration` on a buffer of `N ≥ 1` consecutive valid MPEG1
Layer III frames at 128 kbps / 44100 Hz (each `floor(144000*128/44100) +
padding = 417 + padding` bytes, 1152 samples) returns
`N * 1152 * 1000 / 44100` milliseconds, each frame consumed by advancing the
cursor by the full frame length; a trailing frame header whose frame would
extend past end-of-file is discarded and not counted. -/
theorem c8_mp3_cbr_frame_run (frames : List (List Nat))
    (hne : frames ≠ []) (hfr : ∀ l ∈ frames, IsCBRFrame l)
    (hsz : frames.flatten.length < 2 ^ 64) :
    mp3_duration frames.flatten =
      .ok (frames.length * 1152 * 1000 / 44100) ∧
    (∀ v c d : Nat, ∀ shortbody : List Nat,
      (v = 0xFA ∨ v = 0xFB) →
      (c = 0x90 ∨ c = 0x91 ∨ c = 0x92 ∨ c = 0x93) →
      shortbody.length < 413 + (c >>> 1 &&& 1) →
      mp3_duration (frames.flatten ++ 0xFF :: v :: c :: d :: shortbody) =
        .ok (frames.length * 1152 * 1000 / 44100)) := by
  have h417 := cbr_flatten_len_ge frames hfr
  have hN : 1152 * frames.length * 1000 / 44100 ≤ 2 ^ 64 - 1 := by
    have hlt : 1152 * frames.length * 1000 / 44100 < 2 ^ 64 := by
      rw [Nat.div_lt_iff_lt_mul (by norm_num)]
      omega
    omega
  have hmulc : frames.length * 1152 * 1000 = 1152 * frames.length * 1000 := by
    ring
  obtain ⟨tl, htl⟩ : ∃ tl, frames.flatten = 0xFF :: tl := by
    cases frames with
    | nil => exact absurd rfl hne
    | cons f0 fr =>
      obtain ⟨v, c, d, body, hv, hc, hf0, hblen⟩ := hfr f0 (by simp)
      exact ⟨v :: c :: d :: (body ++ fr.flatten),
        by rw [List.flatten_cons, hf0]; rfl⟩
  constructor
  · rw [hmulc]
    apply mp3_duration_of_run hne hfr hN
    · rw [List.drop_length, List.append_nil]
    · rw [htl]
      exact mp3StartPos_head_ff _
    · intro fuel ts sr
      exact mp3_end_any_fuel (by omega) fuel
  · intro v c d shortbody hv hc hshort
    rw [hmulc]
    apply mp3_duration_of_run hne hfr hN
    · rw [List.drop_left]
    · rw [htl, List.cons_append]
      exact mp3StartPos_head_ff _
    · intro fuel ts sr
      cases fuel with
      | zero => rfl
      | succ fuel =>
        exact mp3_partial_final hv hc hshort (List.drop_left _ _)

/-- A one-frame run: `mp3_duration` on a single 417-byte CBR frame returns
`1152 * 1000 / 44100 = 26` milliseconds. -/
theorem c8_mp3_cbr_frame_run_witness :
    ([cbrFrame] ≠ ([] : List (List Nat))) ∧
    (∀ l ∈ [cbrFrame], IsCBRFrame l) ∧
    [cbrFrame].flatten.length < 2 ^ 64 ∧
    mp3_duration [cbrFrame].flatten = .ok 26 := by
  have h1 : [cbrFrame] ≠ ([] : List (List Nat)) := List.cons_ne_nil _ _
  have h2 : ∀ l ∈ [cbrFrame], IsCBRFrame l := by
    intro l hl
    rw [List.mem_singleton] at hl
    subst hl
    exact ⟨0xFB, 0x90, 0x00, List.replicate 413 0, Or.inr rfl, Or.inl rfl,
      rfl, by decide⟩
  have h3 : [cbrFrame].flatten.length < 2 ^ 64 := by decide
  have h4 := (c8_mp3_cbr_frame_run [cbrFrame] h1 h2 h3).1
  rw [show ([cbrFrame].length * 1152 * 1000 / 44100 : Nat) = 26 from
    by decide] at h4
  exact ⟨h1, h2, h3, h4⟩

end MetaCrate
